import Mathlib

/-!
# Blog list, drag-and-drop and navigation controllers

A shallow embedding of `src/js/BlogList.js`, `src/js/dragDrop.js` and
`src/js/navigation.js`.

Conventions of the embedding

* A controller object is a record of its fields; a method is a function from
  the record before the call to the record after it.
* The browser is not part of the repository.  Its built-ins that the code
  calls (`JSON.parse`, `JSON.stringify`, `new Date(..)`,
  `String.prototype.localeCompare`, `toLowerCase`, `toLocaleDateString`), the
  answers of the network and the errors of the store are the fields of a
  `Host`; every statement quantifies over the host.  The JSON codec is in
  addition written out, as `BlogList.JSON.parse` and `BlogList.JSON.stringify`,
  for the statement that what is written to the cache is read back.
* A JS number is an exact integer or `NaN` (`none`).  Floating point rounding
  is outside the model.
* `async` methods are run to completion; the retry delay has no effect on the
  state and is dropped.  A thrown `Error` is its message.
-/

namespace BlogList

/-! ## Data model -/

/-- A record of the list.  `title` is dereferenced unguarded by the source
(`item.title.toLowerCase()`), `category` and `tags` are guarded
(`a.category || ''`, `item.tags || []`) and so may be missing (`none`).
`reading_time` is whatever text `parseInt` is applied to. -/
structure BlogItem where
  title : String
  content : String
  author : String
  category : Option String
  tags : Option (List String)
  image : String
  published_date : String
  reading_time : String
deriving DecidableEq, Repr

/-- A JS number: an integer, or `none` for `NaN`. -/
abbrev JSNum := Option Int

/-- The binary `-` of JS on numbers: `NaN` if either operand is. -/
def JSNum.sub : JSNum → JSNum → JSNum
  | some a, some b => some (a - b)
  | _, _ => none

/-- What a decoded JSON text is to the controller: `Array.isArray` holds of it
(and then its elements are the records), or it does not. -/
inductive Decoded where
  | array (xs : List BlogItem)
  | other
deriving DecidableEq, Repr

/-- One call of `fetch(url)` followed by `res.json()`: the promise rejects
(network error), or it resolves to a response with its `ok` flag whose body
decodes to a value or fails to decode with a message. -/
inductive Attempt where
  | rejected (message : String)
  | response (ok : Bool) (json : Except String Decoded)

/-- The browser built-ins and the network the controller runs against.
`jsonParse` returns `none` where `JSON.parse` throws; `dateValue s` is the
time value of `new Date(s)`, `none` for an invalid date; `fetch url k` is the
outcome of the `k`-th call (counted from 0) of `fetch(url)`;
`setItemError key value` is the message of the error that
`localStorage.setItem(key, value)` throws (a full or disabled store), `none`
when the call stores the value. -/
structure Host where
  jsonParse : String → Option Decoded
  jsonStringify : List BlogItem → String
  setItemError : String → String → Option String
  dateValue : String → JSNum
  localeCompare : String → String → Int
  toLowerCase : String → String
  toLocaleDateString : String → String
  fetch : String → Nat → Attempt

/-! ## `parseInt` -/

/-- The white space `parseInt` skips (`StrWhiteSpaceChar`). -/
def isStrWhiteSpaceChar (c : Char) : Bool :=
  c.toNat ∈ [0x9, 0xA, 0xB, 0xC, 0xD, 0x20, 0xA0, 0x1680, 0x2028, 0x2029, 0x202F, 0x205F,
    0x3000, 0xFEFF] || (0x2000 ≤ c.toNat && c.toNat ≤ 0x200A)

/-- The value of a character as a digit, letters standing for 10 to 35. -/
def digitValue (c : Char) : Nat :=
  if 48 ≤ c.toNat ∧ c.toNat ≤ 57 then c.toNat - 48
  else if 97 ≤ c.toNat ∧ c.toNat ≤ 122 then c.toNat - 87
  else if 65 ≤ c.toNat ∧ c.toNat ≤ 90 then c.toNat - 55
  else 36

/-- The global `parseInt(string)` with no radix argument: leading white space
is skipped, a sign is read, a `0x` or `0X` start selects base 16, and the
longest run of digits is the value; `NaN` when that run is empty. -/
def parseInt (string : String) : JSNum :=
  let s0 := string.data.dropWhile isStrWhiteSpaceChar
  let sign : Int := if s0.head? = some '-' then -1 else 1
  let s1 := if s0.head? = some '+' ∨ s0.head? = some '-' then s0.tail else s0
  let radix : Nat := match s1 with
    | '0' :: 'x' :: _ => 16
    | '0' :: 'X' :: _ => 16
    | _ => 10
  let s2 := if radix = 16 then s1.drop 2 else s1
  let z := s2.takeWhile (fun c => decide (digitValue c < radix))
  if z = [] then none
  else some (sign * ((z.foldl (fun acc c => acc * radix + digitValue c) 0 : Nat) : Int))

/-! ## `Array.prototype.sort` -/

/-- The comparison `sort` makes of two elements: the number the comparator
returns, with `NaN` read as `+0`. -/
def sortCompare {α : Type} (comparefn : α → α → JSNum) (x y : α) : Int :=
  (comparefn x y).getD 0

/-- Expression `xs.sort(comparefn)`: a stable sort, `x` staying before `y` when the
comparator does not return a positive number for them.  The order a browser
produces is fixed by the language only for a consistent comparator, and is
then this one; for the others the function below is the insertion sort that
engines run on short arrays. -/
def jsSort {α : Type} (comparefn : α → α → JSNum) (xs : List α) : List α :=
  xs.insertionSort (fun x y => sortCompare comparefn x y ≤ 0)

/-! ## `localStorage` and DOM elements -/

/-- The key-value store, a partial map from keys to strings. -/
abbrev Storage := String → Option String

/-- Expression `localStorage.getItem(key)`: `none` is `null`. -/
def Storage.getItem (st : Storage) (key : String) : Option String := st key

/-- The store after a call of `localStorage.setItem(key, value)` that does
not throw. -/
def Storage.setItem (st : Storage) (key value : String) : Storage :=
  fun k => if k = key then some value else st k

/-- Expression `localStorage.setItem(key, value)`: the store after the call,
or the message of the error it throws. -/
def Host.setItem (h : Host) (st : Storage) (key value : String) : Except String Storage :=
  match h.setItemError key value with
  | some message => .error message
  | none => .ok (st.setItem key value)

/-- The part of a DOM element the controller touches. -/
structure Element where
  classList : List String
  textContent : String
deriving DecidableEq, Repr

/-- Expression `el.classList.add(c)`. -/
def Element.addClass (el : Element) (c : String) : Element :=
  { el with classList := if c ∈ el.classList then el.classList else el.classList ++ [c] }

/-- Expression `el.classList.remove(c)`. -/
def Element.removeClass (el : Element) (c : String) : Element :=
  { el with classList := el.classList.filter (fun d => d ≠ c) }

/-! ## The controller -/

/-- The fields of a `BlogList` object together with the parts of the world it
reads and writes: the store, the number of `fetch` calls made so far, the
`innerHTML` of the list container, and the two optional regions. -/
structure State where
  apiUrl : String
  items : List BlogItem
  filteredItems : List BlogItem
  page : Nat
  perPage : Nat
  cacheKey : String
  localStorage : Storage
  fetchCalls : Nat
  listContainer : String
  loadingIndicator : Option Element
  errorContainer : Option Element

/-- Constructor `new BlogList(container)`: `listHTML`, `loading` and `error` are what the
three `querySelector` calls find, `storage` and `calls` the world so far. -/
def constructor (listHTML : String) (loading error : Option Element) (storage : Storage)
    (calls : Nat) : State :=
  { apiUrl := "https://frontend-blog-lyart.vercel.app/blogsData.json"
    items := []
    filteredItems := []
    page := 1
    perPage := 10
    cacheKey := "blogs_cache_v1"
    localStorage := storage
    fetchCalls := calls
    listContainer := listHTML
    loadingIndicator := loading
    errorContainer := error }

/-- The state an `async` method leaves and the message of the error it threw,
if it threw. -/
structure Outcome where
  state : State
  error : Option String

/-- The body of the `try` block of one pass of the retry loop, up to the
point where the data is in hand: the decoded array, or the error thrown. -/
def attempt (a : Attempt) : Except String (List BlogItem) :=
  match a with
  | .rejected message => .error message
  | .response false _ => .error "Failed to fetch blogs"
  | .response true (.error message) => .error message
  | .response true (.ok .other) => .error "Unexpected API response"
  | .response true (.ok (.array data)) => .ok data

/-- The `try` block of one pass of the retry loop, with the state it leaves
and the error thrown inside it, if any: `fetch` is called, a response that is
not `ok` or whose body is no array throws, `items` and `filteredItems` are
assigned, and the array is written to the store, which may throw as well. -/
def tryBlock (h : Host) (s : State) : Outcome :=
  let s1 := { s with fetchCalls := s.fetchCalls + 1 }
  match attempt (h.fetch s.apiUrl s.fetchCalls) with
  | .error err => { state := s1, error := some err }
  | .ok data =>
    let s2 := { s1 with items := data, filteredItems := data }
    match h.setItem s2.localStorage s2.cacheKey (h.jsonStringify data) with
    | .error err => { state := s2, error := some err }
    | .ok storage => { state := { s2 with localStorage := storage }, error := none }

/-- The loop `while (retries >= 0)` of `fetchData`, entered with `retries`:
a pass that throws is followed by the next one unless `retries` is 0, in
which case its error is thrown on. -/
def fetchLoop (h : Host) : Nat → State → Outcome
  | 0, s => tryBlock h s
  | retries + 1, s =>
    match (tryBlock h s).error with
    | none => tryBlock h s
    | some _ => fetchLoop h retries (tryBlock h s).state

/-- The cached array `fetchData` returns early with, if there is one: the
entry exists, is a non-empty string (`if (cached)`), parses, and is an array. -/
def cachedArray (h : Host) (s : State) : Option (List BlogItem) :=
  match s.localStorage.getItem s.cacheKey with
  | none => none
  | some cached =>
    if cached = "" then none
    else
      match h.jsonParse cached with
      | some (.array parsed) => some parsed
      | _ => none

/-- Method `BlogList.fetchData`. -/
def fetchData (h : Host) (s : State) : Outcome :=
  match cachedArray h s with
  | some parsed => { state := { s with items := parsed, filteredItems := parsed }, error := none }
  | none => fetchLoop h 2 s

/-- The markup of one item, the template literal of `render`. -/
def article (h : Host) (item : BlogItem) : String :=
  "\n            <article class=\"blog-item border rounded-lg shadow-sm p-4 mb-4 bg-white flex gap-4\">" ++
  "\n                <img src=\"" ++ item.image ++
    "\" alt=\"\" class=\"blog-image w-32 h-24 object-cover rounded-md\" />" ++
  "\n                <div class=\"blog-content flex-1\">" ++
  "\n                    <h3 class=\"blog-title text-lg font-semibold\">" ++ item.title ++ "</h3>" ++
  "\n                    <div class=\"blog-meta text-sm text-gray-500 space-x-2\">" ++
  "\n                        <span class=\"blog-author\">" ++ item.author ++ "</span>" ++
  "\n                        <time class=\"blog-date\">" ++
    h.toLocaleDateString item.published_date ++ "</time>" ++
  "\n                        <span class=\"blog-reading-time\">" ++ item.reading_time ++
    " min read</span>" ++
  "\n                    </div>" ++
  "\n                    <p class=\"blog-excerpt text-gray-700 mt-1\">" ++ item.content ++ "</p>" ++
  "\n                    <div class=\"blog-tags mt-2 flex flex-wrap gap-2\">" ++
  "\n                        " ++
    String.join ((item.tags.getD []).map (fun t =>
      "<span class=\"tag bg-blue-100 text-blue-700 px-2 py-1 text-xs rounded\">" ++ t ++
        "</span>")) ++
  "\n                    </div>" ++
  "\n                </div>" ++
  "\n            </article>" ++
  "\n        "

/-- The placeholder `render` shows for an empty slice. -/
def noResults : String := "<p class=\"no-results text-gray-600\">No blogs found</p>"

/-- The array `slice` of `render`: the first `page * perPage` items of the
working collection. -/
def slice (s : State) : List BlogItem :=
  s.filteredItems.take (s.page * s.perPage)

/-- The array `slice.map(item => ...)` of `render`: one article per item. -/
def articles (h : Host) (s : State) : List String :=
  (slice s).map (article h)

/-- Method `BlogList.render`. -/
def render (h : Host) (s : State) : State :=
  { s with
    listContainer := if (slice s).length = 0 then noResults else String.join (articles h s) }

/-- Method `BlogList.onSortChange`, `value` being `e.target.value`. -/
def onSortChange (h : Host) (value : String) (s : State) : State :=
  let sorted :=
    if value = "date" then
      jsSort (fun a b => JSNum.sub (h.dateValue b.published_date) (h.dateValue a.published_date))
        s.filteredItems
    else if value = "reading_time" then
      jsSort (fun a b => JSNum.sub (parseInt a.reading_time) (parseInt b.reading_time))
        s.filteredItems
    else if value = "category" then
      jsSort (fun a b => some (h.localeCompare (a.category.getD "") (b.category.getD "")))
        s.filteredItems
    else s.filteredItems
  render h { s with filteredItems := sorted, page := 1 }

/-- The test of `onFilterChange`:
`item.category === val || (item.tags || []).includes(val)`. -/
def matchesFilter (val : String) (item : BlogItem) : Bool :=
  decide (item.category = some val) || decide (val ∈ item.tags.getD [])

/-- Method `BlogList.onFilterChange`, `value` being `e.target.value`. -/
def onFilterChange (h : Host) (value : String) (s : State) : State :=
  let filtered := if value ≠ "" then s.items.filter (matchesFilter value) else s.items
  render h { s with filteredItems := filtered, page := 1 }

/-- Expression `String.prototype.includes`: `q` occurs in `t` as a substring. -/
def includes (t q : String) : Bool := decide (q.data <:+: t.data)

/-- Method `BlogList.onSearchInput`, `value` being `e.target.value`. -/
def onSearchInput (h : Host) (value : String) (s : State) : State :=
  let q := h.toLowerCase value
  render h { s with
    filteredItems := s.items.filter (fun item => includes (h.toLowerCase item.title) q)
    page := 1 }

/-- Method `BlogList.showLoading`. -/
def showLoading (s : State) : State :=
  { s with loadingIndicator := s.loadingIndicator.map (fun el => el.removeClass "hidden") }

/-- Method `BlogList.hideLoading`. -/
def hideLoading (s : State) : State :=
  { s with loadingIndicator := s.loadingIndicator.map (fun el => el.addClass "hidden") }

/-- Method `BlogList.showError`, `message` being `err.message`. -/
def showError (message : String) (s : State) : State :=
  match s.errorContainer with
  | none => s
  | some el =>
    let shown : Element :=
      { classList := (el.removeClass "hidden").classList, textContent := "Error: " ++ message }
    { s with errorContainer := some shown }

/-- Method `BlogList.init`.  `setupEventListeners` registers handlers and changes no
field, so it is the identity here. -/
def init (h : Host) (s : State) : State :=
  let r := fetchData h (showLoading s)
  let s2 :=
    match r.error with
    | none => render h r.state
    | some err => showError err r.state
  hideLoading s2

/-! ## `JSON.stringify` and `JSON.parse` -/

namespace JSON

/-- A lexical unit of a JSON text.  A string token carries the characters the
string stands for, a number token the characters of the literal. -/
inductive Token where
  | lbracket
  | rbracket
  | lbrace
  | rbrace
  | colon
  | comma
  | str (chars : List Char)
  | num (text : List Char)
  | bool (b : Bool)
  | null
deriving DecidableEq, Repr

/-- A JSON value.  A number is kept as the text of its literal. -/
inductive Value where
  | null
  | bool (b : Bool)
  | num (text : List Char)
  | str (s : String)
  | arr (elements : List Value)
  | obj (members : List (String × Value))

/-! ### Writing -/

/-- The digit of value `n < 16` in lower-case hexadecimal. -/
def hexDigit (n : Nat) : Char :=
  if n < 10 then Char.ofNat (48 + n) else Char.ofNat (87 + n)

/-- The text of a character inside a JSON string, as `JSON.stringify` quotes
it: the quote and the backslash are escaped, the control characters are
written `\b`, `\t`, `\n`, `\f`, `\r` or `\u00XX`, every other character is
itself. -/
def escapeChar (c : Char) : List Char :=
  if c.toNat = 34 then ['\\', '"']
  else if c.toNat = 92 then ['\\', '\\']
  else if c.toNat = 8 then ['\\', 'b']
  else if c.toNat = 9 then ['\\', 't']
  else if c.toNat = 10 then ['\\', 'n']
  else if c.toNat = 12 then ['\\', 'f']
  else if c.toNat = 13 then ['\\', 'r']
  else if c.toNat < 32 then ['\\', 'u', '0', '0', hexDigit (c.toNat / 16), hexDigit (c.toNat % 16)]
  else [c]

/-- The text of a token. -/
def Token.render : Token → List Char
  | .lbracket => ['[']
  | .rbracket => [']']
  | .lbrace => ['\x7b']
  | .rbrace => ['\x7d']
  | .colon => [':']
  | .comma => [',']
  | .str chars => '"' :: (chars.flatMap escapeChar ++ ['"'])
  | .num text => text
  | .bool true => ['t', 'r', 'u', 'e']
  | .bool false => ['f', 'a', 'l', 's', 'e']
  | .null => ['n', 'u', 'l', 'l']

/-- The token sequences `parts`, with a comma between neighbours. -/
def commaSeparated : List (List Token) → List Token
  | [] => []
  | [part] => part
  | part :: rest => part ++ .comma :: commaSeparated rest

/-- The tokens of an array with the given elements. -/
def arrayTokens (elements : List (List Token)) : List Token :=
  .lbracket :: (commaSeparated elements ++ [.rbracket])

/-- The tokens of a property `"key":value`. -/
def memberTokens (key : String) (value : List Token) : List Token :=
  .str key.data :: .colon :: value

/-- The tokens of an object with the given properties. -/
def objectTokens (members : List (List Token)) : List Token :=
  .lbrace :: (commaSeparated members ++ [.rbrace])

/-- The tokens of a string value. -/
def stringTokens (s : String) : List Token := [.str s.data]

/-- The properties of a record that `JSON.stringify` writes, in the order of
the record type: a missing `category` or `tags` is not written. -/
def itemMembers (item : BlogItem) : List (List Token) :=
  [ memberTokens "title" (stringTokens item.title)
  , memberTokens "content" (stringTokens item.content)
  , memberTokens "author" (stringTokens item.author) ] ++
  (match item.category with
    | some c => [memberTokens "category" (stringTokens c)]
    | none => []) ++
  (match item.tags with
    | some ts => [memberTokens "tags" (arrayTokens (ts.map stringTokens))]
    | none => []) ++
  [ memberTokens "image" (stringTokens item.image)
  , memberTokens "published_date" (stringTokens item.published_date)
  , memberTokens "reading_time" (stringTokens item.reading_time) ]

/-- The tokens of a record. -/
def itemTokens (item : BlogItem) : List Token :=
  objectTokens (itemMembers item)

/-- Expression `JSON.stringify(data)` for an array of records: the text of
the array, its records written as objects, without white space. -/
def stringify (data : List BlogItem) : String :=
  String.mk ((arrayTokens (data.map itemTokens)).flatMap Token.render)

/-! ### Reading -/

/-- The white space of JSON. -/
def isWhitespace (c : Char) : Bool :=
  c.toNat = 32 || c.toNat = 9 || c.toNat = 10 || c.toNat = 13

/-- The value of a hexadecimal digit. -/
def hexValue (c : Char) : Option Nat :=
  if 48 ≤ c.toNat ∧ c.toNat ≤ 57 then some (c.toNat - 48)
  else if 97 ≤ c.toNat ∧ c.toNat ≤ 102 then some (c.toNat - 87)
  else if 65 ≤ c.toNat ∧ c.toNat ≤ 70 then some (c.toNat - 55)
  else none

/-- The code unit of the four hexadecimal digits of a `\u` escape. -/
def hex4 (a b c d : Char) : Option Nat :=
  match hexValue a, hexValue b, hexValue c, hexValue d with
  | some x, some y, some z, some w => some (4096 * x + 256 * y + 16 * z + w)
  | _, _, _, _ => none

/-- The character a `\u` escape with code unit `u` stands for, and the text
after it.  A high surrogate followed by the escape of a low one stands for
the character of the pair; a surrogate on its own, which a `String` here
cannot hold, is read as U+FFFD. -/
def readUnicode (u : Nat) (rest : List Char) : Char × List Char :=
  if 0xD800 ≤ u ∧ u < 0xDC00 then
    match rest with
    | '\\' :: 'u' :: a :: b :: c :: d :: rest2 =>
      match hex4 a b c d with
      | some lo =>
        if 0xDC00 ≤ lo ∧ lo < 0xE000 then
          (Char.ofNat (0x10000 + (u - 0xD800) * 0x400 + (lo - 0xDC00)), rest2)
        else (Char.ofNat 0xFFFD, rest)
      | none => (Char.ofNat 0xFFFD, rest)
    | _ => (Char.ofNat 0xFFFD, rest)
  else if 0xDC00 ≤ u ∧ u < 0xE000 then (Char.ofNat 0xFFFD, rest)
  else (Char.ofNat u, rest)

/-- One character of a JSON string, escaped or not, and the text after it;
`none` where the text is no character of a string. -/
def readChar : List Char → Option (Char × List Char)
  | [] => none
  | c :: rest =>
    if c.toNat = 92 then
      match rest with
      | [] => none
      | e :: rest1 =>
        if e.toNat = 34 then some ('"', rest1)
        else if e.toNat = 92 then some ('\\', rest1)
        else if e.toNat = 47 then some ('/', rest1)
        else if e.toNat = 98 then some (Char.ofNat 8, rest1)
        else if e.toNat = 102 then some (Char.ofNat 12, rest1)
        else if e.toNat = 110 then some (Char.ofNat 10, rest1)
        else if e.toNat = 114 then some (Char.ofNat 13, rest1)
        else if e.toNat = 116 then some (Char.ofNat 9, rest1)
        else if e.toNat = 117 then
          match rest1 with
          | a :: b :: c :: d :: rest2 => (hex4 a b c d).map (fun u => readUnicode u rest2)
          | _ => none
        else none
    else if c.toNat < 32 then none
    else some (c, rest)

/-- The characters of a JSON string up to its closing quote, and the text
after the quote; `fuel` bounds the number of characters read. -/
def lexString : Nat → List Char → Option (List Char × List Char)
  | 0, _ => none
  | fuel + 1, text =>
    match text with
    | [] => none
    | c :: rest =>
      if c.toNat = 34 then some ([], rest)
      else
        match readChar (c :: rest) with
        | none => none
        | some (ch, rest1) =>
          match lexString fuel rest1 with
          | none => none
          | some (chars, rest2) => some (ch :: chars, rest2)

/-- A decimal digit. -/
def isDigit (c : Char) : Bool := 48 ≤ c.toNat && c.toNat ≤ 57

/-- The text of a JSON number literal at the start of `text`, and the text
after it: a sign, an integer part without a leading zero, a fraction, an
exponent. -/
def lexNumber (text : List Char) : Option (List Char × List Char) :=
  let (sign, t0) : List Char × List Char :=
    match text with
    | '-' :: rest => (['-'], rest)
    | _ => ([], text)
  let digits := t0.takeWhile isDigit
  let t1 := t0.dropWhile isDigit
  if digits = [] then none
  else if digits.head? = some '0' ∧ digits.length ≠ 1 then none
  else
    let fraction : Option (List Char × List Char) :=
      match t1 with
      | '.' :: rest =>
        if rest.takeWhile isDigit = [] then none
        else some ('.' :: rest.takeWhile isDigit, rest.dropWhile isDigit)
      | _ => some ([], t1)
    match fraction with
    | none => none
    | some (frac, t2) =>
      let exponent : Option (List Char × List Char) :=
        match t2 with
        | e :: rest =>
          if e = 'e' ∨ e = 'E' then
            let (esign, t3) : List Char × List Char :=
              match rest with
              | '+' :: r => (['+'], r)
              | '-' :: r => (['-'], r)
              | _ => ([], rest)
            if t3.takeWhile isDigit = [] then none
            else some (e :: esign ++ t3.takeWhile isDigit, t3.dropWhile isDigit)
          else some ([], t2)
        | [] => some ([], t2)
      match exponent with
      | none => none
      | some (exp, t4) => some (sign ++ digits ++ frac ++ exp, t4)

/-- The token at the start of `text`, which does not start with white space,
and the text after it. -/
def lexToken (text : List Char) : Option (Token × List Char) :=
  match text with
  | [] => none
  | c :: rest =>
    if c.toNat = 91 then some (.lbracket, rest)
    else if c.toNat = 93 then some (.rbracket, rest)
    else if c.toNat = 123 then some (.lbrace, rest)
    else if c.toNat = 125 then some (.rbrace, rest)
    else if c.toNat = 58 then some (.colon, rest)
    else if c.toNat = 44 then some (.comma, rest)
    else if c.toNat = 34 then
      (lexString rest.length rest).map (fun r => (.str r.1, r.2))
    else if c.toNat = 45 ∨ isDigit c then
      (lexNumber (c :: rest)).map (fun r => (.num r.1, r.2))
    else
      match c :: rest with
      | 't' :: 'r' :: 'u' :: 'e' :: rest1 => some (.bool true, rest1)
      | 'f' :: 'a' :: 'l' :: 's' :: 'e' :: rest1 => some (.bool false, rest1)
      | 'n' :: 'u' :: 'l' :: 'l' :: rest1 => some (.null, rest1)
      | _ => none

/-- The tokens of `text` behind those read so far, which `found` holds last
first; `fuel` bounds the number of tokens read. -/
def lexFrom : Nat → List Char → List Token → Option (List Token)
  | 0, _, _ => none
  | fuel + 1, text, found =>
    match text.dropWhile isWhitespace with
    | [] => some found.reverse
    | c :: rest =>
      match lexToken (c :: rest) with
      | none => none
      | some (token, rest1) => lexFrom fuel rest1 (token :: found)

/-- The tokens of `text`; `fuel` bounds their number. -/
def lex (fuel : Nat) (text : List Char) : Option (List Token) :=
  lexFrom fuel text []

mutual

/-- The JSON value at the start of `tokens`, and the tokens after it; `fuel`
bounds the depth and length of what is read. -/
def parseValue : Nat → List Token → Option (Value × List Token)
  | 0, _ => none
  | fuel + 1, tokens =>
    match tokens with
    | .str chars :: rest => some (.str (String.mk chars), rest)
    | .num text :: rest => some (.num text, rest)
    | .bool b :: rest => some (.bool b, rest)
    | .null :: rest => some (.null, rest)
    | .lbracket :: .rbracket :: rest => some (.arr [], rest)
    | .lbracket :: rest =>
      match parseElements fuel rest with
      | none => none
      | some (elements, rest1) => some (.arr elements, rest1)
    | .lbrace :: .rbrace :: rest => some (.obj [], rest)
    | .lbrace :: rest =>
      match parseMembers fuel rest with
      | none => none
      | some (members, rest1) => some (.obj members, rest1)
    | _ => none

/-- The elements of an array after its opening bracket, up to the closing
one. -/
def parseElements : Nat → List Token → Option (List Value × List Token)
  | 0, _ => none
  | fuel + 1, tokens =>
    match parseValue fuel tokens with
    | some (v, .comma :: rest) =>
      match parseElements fuel rest with
      | none => none
      | some (elements, rest1) => some (v :: elements, rest1)
    | some (v, .rbracket :: rest) => some ([v], rest)
    | _ => none

/-- The properties of an object after its opening brace, up to the closing
one. -/
def parseMembers : Nat → List Token → Option (List (String × Value) × List Token)
  | 0, _ => none
  | fuel + 1, tokens =>
    match tokens with
    | .str key :: .colon :: rest =>
      match parseValue fuel rest with
      | some (v, .comma :: rest1) =>
        match parseMembers fuel rest1 with
        | none => none
        | some (members, rest2) => some ((String.mk key, v) :: members, rest2)
      | some (v, .rbrace :: rest1) => some ([(String.mk key, v)], rest1)
      | _ => none
    | _ => none

end

/-- The property `key` of a value: the last one of that name of an object. -/
def Value.get (v : Value) (key : String) : Option Value :=
  match v with
  | .obj members => (members.reverse.find? (fun m => m.1 = key)).map (fun m => m.2)
  | _ => none

/-- A property as the optional string the controller reads: a string value,
and missing otherwise. -/
def optionalString : Option Value → Option String
  | some (.str s) => some s
  | _ => none

/-- A property as the text the controller reads: a string, the literal of a
number, and the empty text for what the record type has no place for. -/
def text : Option Value → String
  | some (.str s) => s
  | some (.num literal) => String.mk literal
  | _ => ""

/-- A property as the optional list of strings the controller reads. -/
def optionalStrings : Option Value → Option (List String)
  | some (.arr elements) => some (elements.map (fun e => text (some e)))
  | _ => none

/-- The record an element of a decoded array is to the controller. -/
def toItem (v : Value) : BlogItem :=
  { title := text (v.get "title")
    content := text (v.get "content")
    author := text (v.get "author")
    category := optionalString (v.get "category")
    tags := optionalStrings (v.get "tags")
    image := text (v.get "image")
    published_date := text (v.get "published_date")
    reading_time := text (v.get "reading_time") }

/-- What a JSON value is to the controller. -/
def decode : Value → Decoded
  | .arr elements => .array (elements.map toItem)
  | _ => .other

/-- Expression `JSON.parse(text)`: `none` where it throws a `SyntaxError`. -/
def parse (text : String) : Option Decoded :=
  match lex (text.length + 1) text.data with
  | none => none
  | some tokens =>
    match parseValue tokens.length tokens with
    | some (v, []) => some (decode v)
    | _ => none

end JSON

namespace JSON

/-- A token that `stringify` writes: a punctuation mark or a string. -/
def Token.isPlain : Token → Bool
  | .num _ => false
  | .bool _ => false
  | .null => false
  | _ => true

/-- The tokens `tokens` are read as the value `v`, whatever follows them, by
a `parseValue` with fuel for each of them; they start with a token that ends
neither an array nor an object. -/
def Parses (v : Value) (tokens : List Token) : Prop :=
  (∃ t rest, tokens = t :: rest ∧ t ≠ .rbracket ∧ t ≠ .rbrace) ∧
  ∀ fuel, tokens.length ≤ fuel → ∀ r, parseValue fuel (tokens ++ r) = some (v, r)

/-- The JSON value of a record: the object `stringify` writes for it. -/
def itemValue (item : BlogItem) : Value :=
  .obj ([ ("title", Value.str item.title)
        , ("content", Value.str item.content)
        , ("author", Value.str item.author) ] ++
    (match item.category with
      | some c => [("category", Value.str c)]
      | none => []) ++
    (match item.tags with
      | some ts => [("tags", Value.arr (ts.map Value.str))]
      | none => []) ++
    [ ("image", Value.str item.image)
    , ("published_date", Value.str item.published_date)
    , ("reading_time", Value.str item.reading_time) ])

end JSON

/-! ## Statement vocabulary -/

/-- The answer `a` of the network is a failure, and `e` is the message of its
error: the call was rejected with `e`, or the status was not a success one
and `e` is `Failed to fetch blogs`, or the body did not decode and `e` says
why, or the body decoded to something that is no array and `e` is
`Unexpected API response`. -/
def Attempt.FailsWith (a : Attempt) (e : String) : Prop :=
  a = .rejected e ∨
  ((∃ body, a = .response false body) ∧ e = "Failed to fetch blogs") ∨
  a = .response true (.error e) ∨
  (a = .response true (.ok .other) ∧ e = "Unexpected API response")

/-! ## A concrete host and concrete records -/

/-- A record with the given title, category, tags, date and reading time. -/
def sampleItem (title : String) (category : Option String) (tags : Option (List String))
    (date readingTime : String) : BlogItem :=
  { title := title
    content := "text"
    author := "author"
    category := category
    tags := tags
    image := "img.png"
    published_date := date
    reading_time := readingTime }

/-- Three records. -/
def sampleItems : List BlogItem :=
  [ sampleItem "Intro to CSS" (some "Frontend") (some ["css", "web"]) "3" "5 min"
  , sampleItem "Node streams" (some "Backend") none "1" "12"
  , sampleItem "Untitled" none (some ["Frontend"]) "2" "3" ]

/-- The lexicographic order of code point lists: `x` is at most `y`. -/
def lexLe : List Char → List Char → Bool
  | [], _ => true
  | _ :: _, [] => false
  | a :: x, b :: y => decide (a.toNat < b.toNat) || (decide (a.toNat = b.toNat) && lexLe x y)

/-- A host whose codec knows the text `[sample]` for `sampleItems` and `[]`
for the empty array, whose dates are decimal day numbers, whose collation is
the lexicographic order of code points, whose lower-casing is that of ASCII,
and whose network always answers with status 500. -/
def sampleHost : Host :=
  { jsonParse := fun s =>
      if s = "[sample]" then some (.array sampleItems)
      else if s = "[]" then some (.array [])
      else if s = "0" then some .other
      else none
    jsonStringify := fun xs => if xs = [] then "[]" else "[sample]"
    setItemError := fun _ _ => none
    dateValue := parseInt
    localeCompare := fun a b =>
      if lexLe a.data b.data then (if lexLe b.data a.data then 0 else -1) else 1
    toLowerCase := fun s => String.mk (s.data.map Char.toLower)
    toLocaleDateString := fun s => s
    fetch := fun _ _ => .response false (.error "Unexpected token") }

/-- The host `sampleHost` with a network whose first call fails with status
500 and whose later calls deliver `sampleItems`. -/
def recoveringHost : Host :=
  { sampleHost with
    fetch := fun _ k =>
      if k = 0 then .response false (.error "Unexpected token")
      else .response true (.ok (.array sampleItems)) }

/-- The host `sampleHost` with a network that delivers `sampleItems` at every
call and a store that is full: every write throws. -/
def fullStoreHost : Host :=
  { sampleHost with
    fetch := fun _ _ => .response true (.ok (.array sampleItems))
    setItemError := fun _ _ => some "The quota has been exceeded." }

/-- The host `recoveringHost` with the codec `JSON.parse` and
`JSON.stringify`. -/
def jsonHost : Host :=
  { recoveringHost with jsonParse := JSON.parse, jsonStringify := JSON.stringify }

/-- The host `fullStoreHost` with the codec `JSON.parse` and
`JSON.stringify`. -/
def fullStoreJsonHost : Host :=
  { fullStoreHost with jsonParse := JSON.parse, jsonStringify := JSON.stringify }

/-- A store with the single entry `key ↦ value`. -/
def singleEntry (key value : String) : Storage :=
  fun k => if k = key then some value else none

/-- A visible loading indicator and a hidden, empty error region. -/
def freshController (storage : Storage) : State :=
  constructor "" (some { classList := ["loading-indicator"], textContent := "Loading" })
    (some { classList := ["error-container", "hidden"], textContent := "" }) storage 0

/-- The state a successful pass leaves. -/
def stored (h : Host) (s : State) (data : List BlogItem) : State :=
  { s with
    fetchCalls := s.fetchCalls + 1
    items := data
    filteredItems := data
    localStorage := s.localStorage.setItem s.cacheKey (h.jsonStringify data) }

/-- The state a failed pass leaves. -/
def counted (s : State) : State :=
  { s with fetchCalls := s.fetchCalls + 1 }

/-- The state a pass leaves whose write to the store throws. -/
def loaded (s : State) (data : List BlogItem) : State :=
  { s with fetchCalls := s.fetchCalls + 1, items := data, filteredItems := data }

/-- The comparison `a <= b` of JS on numbers: false when either is `NaN`. -/
def JSNum.le : JSNum → JSNum → Bool
  | some a, some b => decide (a ≤ b)
  | _, _ => false

/-- The reading times, as `parseInt` reads them, do not decrease along `xs`. -/
def SortedByReadingTime (xs : List BlogItem) : Prop :=
  xs.Pairwise (fun a b => JSNum.le (parseInt a.reading_time) (parseInt b.reading_time) = true)

/-- The time values of the publication dates do not increase along `xs`. -/
def SortedByDateDescending (h : Host) (xs : List BlogItem) : Prop :=
  xs.Pairwise (fun a b =>
    JSNum.le (h.dateValue b.published_date) (h.dateValue a.published_date) = true)

/-- The categories, a missing one read as the empty string, do not decrease
along `xs` in the collation of the host. -/
def SortedByCategory (h : Host) (xs : List BlogItem) : Prop :=
  xs.Pairwise (fun a b => h.localeCompare (a.category.getD "") (b.category.getD "") ≤ 0)

/-- No item with a non-empty category stands before an item whose category is
empty or missing. -/
def EmptyCategoryFirst (xs : List BlogItem) : Prop :=
  xs.Pairwise (fun a b => b.category.getD "" = "" → a.category.getD "" = "")

/-- The collation is a consistent comparator: it orders any two strings one
way or the other, transitively. -/
def ConsistentCollation (h : Host) : Prop :=
  (∀ x y, h.localeCompare x y ≤ 0 ∨ h.localeCompare y x ≤ 0) ∧
  (∀ x y z, h.localeCompare x y ≤ 0 → h.localeCompare y z ≤ 0 → h.localeCompare x z ≤ 0)

/-- Three records whose reading times read 5, `NaN` and 3, and whose dates,
as `sampleHost` reads them, are 1, invalid and 3. -/
def unreadableItems : List BlogItem :=
  [ sampleItem "a" none none "1" "5"
  , sampleItem "b" none none "someday" "abc"
  , sampleItem "c" none none "3" "3" ]

/-- A controller whose full and working collections are `xs`. -/
def controllerWith (xs : List BlogItem) : State :=
  { freshController (fun _ => none) with items := xs, filteredItems := xs }

/-- A controller whose full collection is `full` and whose working collection
is `working`. -/
def controllerViewing (full working : List BlogItem) : State :=
  { freshController (fun _ => none) with items := full, filteredItems := working }

/-- Twelve records, titled `01` to `12`. -/
def twelveItems : List BlogItem :=
  ["01", "02", "03", "04", "05", "06", "07", "08", "09", "10", "11", "12"].map
    (fun t => sampleItem t (some "News") none "1" "4")

/-- The host `sampleHost` with a codec that knows the text `[twelve]` for
`twelveItems`. -/
def twelveHost : Host :=
  { sampleHost with
    jsonParse := fun s => if s = "[twelve]" then some (.array twelveItems) else none }

/-- The number `found`, raised by the number of places of the text at which
`pattern` starts. -/
def countFrom (pattern : List Char) : Nat → List Char → Nat
  | found, [] => found
  | found, c :: rest =>
    countFrom pattern (if pattern.isPrefixOf (c :: rest) then found + 1 else found) rest

/-- The number of places of `text` at which `pattern` starts. -/
def countOccurrences (pattern text : List Char) : Nat :=
  countFrom pattern 0 text

/-- The text with which the start tag of every article element begins. -/
def articleTag : String := "<article"

/-- The number of article elements that the markup `html` opens: the number
of places at which a start tag `<article` stands. -/
def countArticles (html : String) : Nat :=
  countOccurrences articleTag.data html.data

/-- The text `text` ends inside an occurrence of `pattern`: a proper,
non-empty start of `pattern` is the end of `text`. -/
def endsInside (pattern text : List Char) : Bool :=
  (List.range pattern.length).any (fun k => decide (0 < k) && (pattern.take k).isSuffixOf text)

/-- Text that holds no markup: the character `<` does not occur in it. -/
def isPlainText (s : String) : Bool := !s.data.contains '<'

/-- A record all of whose displayed fields hold no markup, the date as the
host formats it. -/
def isPlainItem (h : Host) (item : BlogItem) : Bool :=
  isPlainText item.image && isPlainText item.title && isPlainText item.author &&
  isPlainText (h.toLocaleDateString item.published_date) && isPlainText item.reading_time &&
  isPlainText item.content && (item.tags.getD []).all isPlainText

/-- A record whose title is markup: it opens an article element. -/
def markupItem : BlogItem :=
  sampleItem "<article>Nested</article>" none none "1" "4"

end BlogList

namespace DragDrop

/-! ## The drag-and-drop controller -/

/-- A draggable element, by identity.  Items are leaves of the document: no
drop zone lies inside one. -/
abbrev Item := Nat

/-- A drop zone, by identity. -/
abbrev Zone := Nat

/-- The field `dragState`. -/
structure DragState where
  isDragging : Bool
  currentItem : Option Item
deriving DecidableEq, Repr

/-- The controller and the part of the document it changes: the draggable
children of every drop zone, in document order, and the class lists of the
items and of the zones. -/
structure State where
  dragState : DragState
  children : Zone → List Item
  itemClasses : Item → List String
  zoneClasses : Zone → List String

/-- Expression `classList.add(c1, c2, ...)`. -/
def addClasses (classList added : List String) : List String :=
  added.foldl (fun cl c => if c ∈ cl then cl else cl ++ [c]) classList

/-- Expression `classList.remove(c1, c2, ...)`. -/
def removeClasses (classList removed : List String) : List String :=
  classList.filter (fun c => c ∉ removed)

/-- Expression `zone.appendChild(item)`: the item leaves the parent it has and becomes
the last child of `zone`. -/
def appendChild (children : Zone → List Item) (zone : Zone) (item : Item) : Zone → List Item :=
  fun z =>
    if z = zone then (children z).filter (fun x => x ≠ item) ++ [item]
    else (children z).filter (fun x => x ≠ item)

/-- Constructor `new DragDrop()` on a document with the given zones and class lists. -/
def constructor (children : Zone → List Item) (itemClasses : Item → List String)
    (zoneClasses : Zone → List String) : State :=
  { dragState := { isDragging := false, currentItem := none }
    children := children
    itemClasses := itemClasses
    zoneClasses := zoneClasses }

/-- Method `DragDrop.handleDragStart`; the write to `e.dataTransfer` is to the event. -/
def handleDragStart (item : Item) (s : State) : State :=
  { s with
    dragState := { isDragging := true, currentItem := some item }
    itemClasses := fun i =>
      if i = item then addClasses (s.itemClasses i) ["opacity-50", "scale-95"]
      else s.itemClasses i }

/-- Method `DragDrop.handleDragEnd`. -/
def handleDragEnd (item : Item) (s : State) : State :=
  { s with
    dragState := { isDragging := false, currentItem := none }
    itemClasses := fun i =>
      if i = item then removeClasses (s.itemClasses i) ["opacity-50", "scale-95"]
      else s.itemClasses i }

/-- Method `DragDrop.handleDragOver`. -/
def handleDragOver (zone : Zone) (s : State) : State :=
  { s with
    zoneClasses := fun z =>
      if z = zone then addClasses (s.zoneClasses z) ["border-blue-400", "bg-blue-50"]
      else s.zoneClasses z }

/-- Method `DragDrop.handleDragLeave`. -/
def handleDragLeave (zone : Zone) (s : State) : State :=
  { s with
    zoneClasses := fun z =>
      if z = zone then removeClasses (s.zoneClasses z) ["border-blue-400", "bg-blue-50"]
      else s.zoneClasses z }

/-- Method `DragDrop.handleDrop`. -/
def handleDrop (zone : Zone) (s : State) : State :=
  let s1 :=
    match s.dragState.currentItem with
    | some item => { s with children := appendChild s.children zone item }
    | none => s
  let s2 := handleDragLeave zone s1
  { s2 with dragState := { s2.dragState with isDragging := false } }

/-- Method `DragDrop.handleTouchStart`. -/
def handleTouchStart (item : Item) (s : State) : State :=
  { s with
    dragState := { isDragging := true, currentItem := some item }
    itemClasses := fun i =>
      if i = item then addClasses (s.itemClasses i) ["opacity-50", "scale-95"]
      else s.itemClasses i }

/-- Method `DragDrop.handleTouchEnd`. -/
def handleTouchEnd (item : Item) (s : State) : State :=
  { s with
    dragState := { isDragging := false, currentItem := none }
    itemClasses := fun i =>
      if i = item then removeClasses (s.itemClasses i) ["opacity-50", "scale-95"]
      else s.itemClasses i }

/-- Method `DragDrop.handleTouchDrop`. -/
def handleTouchDrop (zone : Zone) (s : State) : State :=
  let s1 :=
    match s.dragState.currentItem with
    | some item => { s with children := appendChild s.children zone item }
    | none => s
  handleDragLeave zone s1

/-- A board with two zones: zone 0 holds the items 1, 2 and 3, zone 1 holds
the item 4. -/
def sampleBoard : State :=
  constructor (fun z => if z = 0 then [1, 2, 3] else if z = 1 then [4] else [])
    (fun _ => ["draggable-item"]) (fun _ => ["drop-zone"])

end DragDrop

namespace Navigation

/-! ## The navigation controller -/

/-- An element of the document, by identity. -/
abbrev Node := Nat

/-- The field `links` and `document.activeElement`. -/
structure State where
  links : List Node
  activeElement : Node
deriving DecidableEq, Repr

/-- Expression `this.links.indexOf(current)`: the first index of `current`, or -1. -/
def indexOf (links : List Node) (current : Node) : Int :=
  if current ∈ links then (links.indexOf current : Nat) else -1

/-- Expression `this.links[next]`: `none` is `undefined`. -/
def linkAt (links : List Node) (next : Int) : Option Node :=
  if next < 0 then none else links[next.toNat]?

/-- Method `Navigation._focusOffset`.  `%` is the remainder of JS, which has the
sign of the dividend.  Where `this.links[next]` is `undefined` the call of
`focus` throws and the state stays as it is; otherwise the link takes the
focus. -/
def _focusOffset (offset : Int) (s : State) : State :=
  let idx := indexOf s.links s.activeElement
  let next : Int :=
    if idx = -1 then 0
    else Int.tmod (idx + offset + s.links.length) s.links.length
  match linkAt s.links next with
  | some link => { s with activeElement := link }
  | none => s

/-- Method `Navigation._onLinkKeydown`, `key` being `e.key`. -/
def _onLinkKeydown (key : String) (s : State) : State :=
  if key ∈ ["ArrowRight", "ArrowDown"] then _focusOffset 1 s
  else if key ∈ ["ArrowLeft", "ArrowUp"] then _focusOffset (-1) s
  else s

/-- Four links, the third of which has the focus. -/
def sampleNav : State :=
  { links := [10, 11, 12, 13], activeElement := 12 }

end Navigation

/-! # Theorems -/

namespace BlogList

/-! ## Fetching -/

theorem cachedArray_showLoading (h : Host) (s : State) :
    cachedArray h (showLoading s) = cachedArray h s := rfl

theorem cachedArray_eq_some {h : Host} {s : State} {cached : String} {A : List BlogItem}
    (hget : s.localStorage.getItem s.cacheKey = some cached) (hne : cached ≠ "")
    (hparse : h.jsonParse cached = some (.array A)) : cachedArray h s = some A := by
  simp [cachedArray, hget, hne, hparse]

/-- A failure of the network makes the `try` block throw its error. -/
theorem attempt_of_failsWith (a : Attempt) (e : String) (hf : a.FailsWith e) :
    attempt a = .error e := by
  rcases hf with rfl | ⟨⟨body, rfl⟩, rfl⟩ | rfl | ⟨rfl, rfl⟩ <;> rfl

theorem tryBlock_fetch_error (h : Host) (s : State) (e : String)
    (hf : (h.fetch s.apiUrl (s.fetchCalls + 0)).FailsWith e) :
    tryBlock h s = { state := counted s, error := some e } := by
  have ha := attempt_of_failsWith _ e hf
  simp only [Nat.add_zero] at ha
  simp [tryBlock, ha, counted]

theorem tryBlock_stored (h : Host) (s : State) (D : List BlogItem)
    (hok : h.fetch s.apiUrl (s.fetchCalls + 0) = .response true (.ok (.array D)))
    (hset : h.setItemError s.cacheKey (h.jsonStringify D) = none) :
    tryBlock h s = { state := stored h s D, error := none } := by
  simp only [Nat.add_zero] at hok
  simp [tryBlock, hok, attempt, Host.setItem, hset, stored]

theorem tryBlock_store_error (h : Host) (s : State) (D : List BlogItem) (e : String)
    (hok : h.fetch s.apiUrl (s.fetchCalls + 0) = .response true (.ok (.array D)))
    (hset : h.setItemError s.cacheKey (h.jsonStringify D) = some e) :
    tryBlock h s = { state := loaded s D, error := some e } := by
  simp only [Nat.add_zero] at hok
  simp [tryBlock, hok, attempt, Host.setItem, hset, loaded]

/-- A pass makes one call of `fetch` and leaves the address, the cache key
and the two regions as they were. -/
theorem tryBlock_frame (h : Host) (s : State) :
    (tryBlock h s).state.fetchCalls = s.fetchCalls + 1 ∧
    (tryBlock h s).state.apiUrl = s.apiUrl ∧
    (tryBlock h s).state.cacheKey = s.cacheKey := by
  unfold tryBlock
  cases attempt (h.fetch s.apiUrl s.fetchCalls) with
  | error err => exact ⟨rfl, rfl, rfl⟩
  | ok data =>
    simp only
    cases h.setItem s.localStorage s.cacheKey (h.jsonStringify data) <;> exact ⟨rfl, rfl, rfl⟩

theorem fetchLoop_of_ok (h : Host) (r : Nat) (s : State) (hok : (tryBlock h s).error = none) :
    fetchLoop h r s = tryBlock h s := by
  cases r <;> simp [fetchLoop, hok]

theorem fetchLoop_of_error (h : Host) (r : Nat) (s : State) (e : String)
    (herr : (tryBlock h s).error = some e) :
    fetchLoop h (r + 1) s = fetchLoop h r (tryBlock h s).state := by
  simp [fetchLoop, herr]

/-- The loop entered with `r` retries makes between one and `r + 1` calls. -/
theorem fetchLoop_calls (h : Host) :
    ∀ (r : Nat) (s : State), s.fetchCalls + 1 ≤ (fetchLoop h r s).state.fetchCalls ∧
      (fetchLoop h r s).state.fetchCalls ≤ s.fetchCalls + (r + 1)
  | 0, s => by
    have hf := (tryBlock_frame h s).1
    simp only [fetchLoop]
    omega
  | r + 1, s => by
    have hf := (tryBlock_frame h s).1
    cases herr : (tryBlock h s).error with
    | none =>
      rw [fetchLoop_of_ok h (r + 1) s herr]
      omega
    | some e =>
      rw [fetchLoop_of_error h r s e herr]
      have hrec := fetchLoop_calls h r (tryBlock h s).state
      omega

theorem fetch_counted (h : Host) (s : State) (k : Nat) :
    h.fetch (counted s).apiUrl ((counted s).fetchCalls + k) =
      h.fetch s.apiUrl (s.fetchCalls + (k + 1)) := by
  simp [counted, Nat.add_comm, Nat.add_left_comm]

/-- The loop entered with 2 retries stops at the first pass `k < 3` whose
answer is an array under a success status and whose write to the store does
not throw, the passes before it having failed in the network. -/
theorem fetchLoop_first_success (h : Host) (s : State) (k : Nat) (D : List BlogItem)
    (hk : k < 3) (hfail : ∀ j, j < k → ∃ e, (h.fetch s.apiUrl (s.fetchCalls + j)).FailsWith e)
    (hok : h.fetch s.apiUrl (s.fetchCalls + k) = .response true (.ok (.array D)))
    (hset : h.setItemError s.cacheKey (h.jsonStringify D) = none) :
    fetchLoop h 2 s =
      { state := stored h { s with fetchCalls := s.fetchCalls + k } D, error := none } := by
  have h0 := hfail 0
  have h1 := hfail 1
  interval_cases k
  · have hp := tryBlock_stored h s D hok hset
    rw [fetchLoop_of_ok h 2 s (by rw [hp]), hp]
    rfl
  · obtain ⟨e0, he0⟩ := h0 (by omega)
    have hp0 := tryBlock_fetch_error h s e0 he0
    have hp1 := tryBlock_stored h (counted s) D (by rw [fetch_counted]; exact hok) hset
    rw [fetchLoop_of_error h 1 s e0 (by rw [hp0]), hp0,
      fetchLoop_of_ok h 1 (counted s) (by rw [hp1]), hp1]
    rfl
  · obtain ⟨e0, he0⟩ := h0 (by omega)
    obtain ⟨e1, he1⟩ := h1 (by omega)
    have hp0 := tryBlock_fetch_error h s e0 he0
    have hp1 := tryBlock_fetch_error h (counted s) e1 (by rw [fetch_counted]; exact he1)
    have hp2 := tryBlock_stored h (counted (counted s)) D
      (by rw [fetch_counted, fetch_counted]; exact hok) hset
    rw [fetchLoop_of_error h 1 s e0 (by rw [hp0]), hp0,
      fetchLoop_of_error h 0 (counted s) e1 (by rw [hp1]), hp1,
      fetchLoop_of_ok h 0 (counted (counted s)) (by rw [hp2]), hp2]
    rfl

/-- The loop entered with 2 retries throws the error of the third pass when
all three fail in the network. -/
theorem fetchLoop_all_fail (h : Host) (s : State) (e0 e1 e2 : String)
    (h0 : (h.fetch s.apiUrl (s.fetchCalls + 0)).FailsWith e0)
    (h1 : (h.fetch s.apiUrl (s.fetchCalls + 1)).FailsWith e1)
    (h2 : (h.fetch s.apiUrl (s.fetchCalls + 2)).FailsWith e2) :
    fetchLoop h 2 s = { state := { s with fetchCalls := s.fetchCalls + 3 }, error := some e2 } := by
  have hp0 := tryBlock_fetch_error h s e0 h0
  have hp1 := tryBlock_fetch_error h (counted s) e1 (by rw [fetch_counted]; exact h1)
  have hp2 := tryBlock_fetch_error h (counted (counted s)) e2
    (by rw [fetch_counted, fetch_counted]; exact h2)
  rw [fetchLoop_of_error h 1 s e0 (by rw [hp0]), hp0,
    fetchLoop_of_error h 0 (counted s) e1 (by rw [hp1]), hp1]
  show tryBlock h (counted (counted s)) = _
  rw [hp2]
  rfl

/-- With a cached array, `fetchData` returns it and does nothing else. -/
theorem fetchData_of_cached (h : Host) (s : State) (A : List BlogItem)
    (hhit : cachedArray h s = some A) :
    fetchData h s = { state := { s with items := A, filteredItems := A }, error := none } := by
  simp [fetchData, hhit]

/-- C1: when the cache entry is a non-empty string that parses to an array
`A`, `fetchData` returns without throwing, makes no call of `fetch`, leaves
the store as it was, and sets both `items` and `filteredItems` to `A`. -/
theorem fetchData_cache_hit (h : Host) (s : State) (cached : String) (A : List BlogItem)
    (hget : s.localStorage.getItem s.cacheKey = some cached) (hne : cached ≠ "")
    (hparse : h.jsonParse cached = some (.array A)) :
    (fetchData h s).error = none ∧
    (fetchData h s).state.fetchCalls = s.fetchCalls ∧
    (fetchData h s).state.localStorage = s.localStorage ∧
    (fetchData h s).state.items = A ∧
    (fetchData h s).state.filteredItems = A := by
  rw [fetchData_of_cached h s A (cachedArray_eq_some hget hne hparse)]
  exact ⟨rfl, rfl, rfl, rfl, rfl⟩

/-- Witness of C1: the store holds `[sample]`, which the sample codec parses
to the three sample records. -/
theorem fetchData_cache_hit_witness :
    (freshController (singleEntry "blogs_cache_v1" "[sample]")).localStorage.getItem
        (freshController (singleEntry "blogs_cache_v1" "[sample]")).cacheKey = some "[sample]" ∧
    sampleHost.jsonParse "[sample]" = some (.array sampleItems) ∧
    (fetchData sampleHost (freshController (singleEntry "blogs_cache_v1" "[sample]"))).state.fetchCalls
      = 0 ∧
    (fetchData sampleHost (freshController (singleEntry "blogs_cache_v1" "[sample]"))).state.items
      = sampleItems :=
  have hw := fetchData_cache_hit sampleHost
    (freshController (singleEntry "blogs_cache_v1" "[sample]")) "[sample]" sampleItems
    (by decide) (by decide) (by decide)
  ⟨by decide, by decide, hw.2.1, hw.2.2.2.1⟩

theorem fetchData_miss (h : Host) (s : State) (hmiss : cachedArray h s = none) :
    fetchData h s = fetchLoop h 2 s := by
  simp [fetchData, hmiss]

theorem failsWith_not_ok (a : Attempt) (hj : ∃ body, a = .response false body) :
    a.FailsWith "Failed to fetch blogs" :=
  Or.inr (Or.inl ⟨hj, rfl⟩)

theorem mem_addClass_self (el : Element) (c : String) : c ∈ (el.addClass c).classList := by
  unfold Element.addClass
  by_cases hc : c ∈ el.classList <;> simp [hc]

theorem not_mem_removeClass_self (el : Element) (c : String) :
    c ∉ (el.removeClass c).classList := by
  simp [Element.removeClass]

/-- The state `init` ends in when `fetchData` throws `e` after three calls. -/
theorem init_of_all_fail (h : Host) (s : State) (hmiss : cachedArray h s = none)
    (e0 e1 e2 : String)
    (h0 : (h.fetch s.apiUrl (s.fetchCalls + 0)).FailsWith e0)
    (h1 : (h.fetch s.apiUrl (s.fetchCalls + 1)).FailsWith e1)
    (h2 : (h.fetch s.apiUrl (s.fetchCalls + 2)).FailsWith e2) :
    init h s =
      hideLoading (showError e2 { showLoading s with fetchCalls := s.fetchCalls + 3 }) := by
  have hf : fetchData h (showLoading s) =
      { state := { showLoading s with fetchCalls := s.fetchCalls + 3 }, error := some e2 } := by
    rw [fetchData_miss h (showLoading s) hmiss]
    exact fetchLoop_all_fail h (showLoading s) e0 e1 e2 h0 h1 h2
  simp [init, hf]

/-- C2, as amended: with no valid cache, `fetchData` makes at most three
calls of `fetch`; it stops at the first call that answers with an array under
a success status, and returns it, provided the write of that array to the
store does not throw; when all three answers are failures it throws the error
of the third.  When the three calls answer with a non-success status, three
calls are made, and `init` leaves the error region (if the page has one)
without the class `hidden` and with the text `Error: Failed to fetch blogs`,
and the loading indicator (if the page has one) with the class `hidden`. -/
theorem fetchData_retries (h : Host) (s : State) (hmiss : cachedArray h s = none) :
    (fetchData h s).state.fetchCalls ≤ s.fetchCalls + 3 ∧
    (∀ k D, k < 3 →
      (∀ j, j < k → ∃ e, (h.fetch s.apiUrl (s.fetchCalls + j)).FailsWith e) →
      h.fetch s.apiUrl (s.fetchCalls + k) = .response true (.ok (.array D)) →
      h.setItemError s.cacheKey (h.jsonStringify D) = none →
        (fetchData h s).error = none ∧
        (fetchData h s).state.fetchCalls = s.fetchCalls + (k + 1) ∧
        (fetchData h s).state.items = D ∧
        (fetchData h s).state.filteredItems = D) ∧
    (∀ e0 e1 e2, (h.fetch s.apiUrl (s.fetchCalls + 0)).FailsWith e0 →
      (h.fetch s.apiUrl (s.fetchCalls + 1)).FailsWith e1 →
      (h.fetch s.apiUrl (s.fetchCalls + 2)).FailsWith e2 →
        (fetchData h s).error = some e2 ∧
        (fetchData h s).state.fetchCalls = s.fetchCalls + 3) ∧
    ((∀ j, j < 3 → ∃ body, h.fetch s.apiUrl (s.fetchCalls + j) = .response false body) →
        (fetchData h s).error = some "Failed to fetch blogs" ∧
        (fetchData h s).state.fetchCalls = s.fetchCalls + 3 ∧
        (init h s).fetchCalls = s.fetchCalls + 3 ∧
        (init h s).errorContainer.isSome = s.errorContainer.isSome ∧
        (∀ el, (init h s).errorContainer = some el →
          "hidden" ∉ el.classList ∧ el.textContent = "Error: Failed to fetch blogs") ∧
        (init h s).loadingIndicator.isSome = s.loadingIndicator.isSome ∧
        (∀ el, (init h s).loadingIndicator = some el → "hidden" ∈ el.classList)) := by
  refine ⟨?_, ?_, ?_, ?_⟩
  · rw [fetchData_miss h s hmiss]
    exact (fetchLoop_calls h 2 s).2
  · intro k D hk hfail hok hset
    rw [fetchData_miss h s hmiss, fetchLoop_first_success h s k D hk hfail hok hset]
    simp [stored, Nat.add_assoc]
  · intro e0 e1 e2 h0 h1 h2
    rw [fetchData_miss h s hmiss, fetchLoop_all_fail h s e0 e1 e2 h0 h1 h2]
    simp
  · intro hall
    have h0 := failsWith_not_ok _ (hall 0 (by omega))
    have h1 := failsWith_not_ok _ (hall 1 (by omega))
    have h2 := failsWith_not_ok _ (hall 2 (by omega))
    have hinit := init_of_all_fail h s hmiss _ _ _ h0 h1 h2
    refine ⟨?_, ?_, ?_, ?_, ?_, ?_, ?_⟩
    · rw [fetchData_miss h s hmiss, fetchLoop_all_fail h s _ _ _ h0 h1 h2]
    · rw [fetchData_miss h s hmiss, fetchLoop_all_fail h s _ _ _ h0 h1 h2]
    · rw [hinit]
      cases hs : s.errorContainer <;> simp [hideLoading, showError, showLoading, hs]
    · rw [hinit]
      cases hs : s.errorContainer <;> simp [hideLoading, showError, showLoading, hs]
    · intro el hel
      rw [hinit] at hel
      cases hs : s.errorContainer with
      | none => simp [hideLoading, showError, showLoading, hs] at hel
      | some el0 =>
        simp [hideLoading, showError, showLoading, hs] at hel
        subst hel
        exact ⟨not_mem_removeClass_self el0 "hidden", rfl⟩
    · rw [hinit]
      cases hs : s.errorContainer <;> simp [hideLoading, showError, showLoading, hs]
    · intro el hel
      rw [hinit] at hel
      cases hl : s.loadingIndicator with
      | none =>
        cases hs : s.errorContainer <;>
          simp [hideLoading, showError, showLoading, hs, hl] at hel
      | some el0 =>
        cases hs : s.errorContainer <;>
          simp [hideLoading, showError, showLoading, hs, hl] at hel <;>
          (subst hel; exact mem_addClass_self _ "hidden")

/-- Witness of C2: an empty store; with `recoveringHost` the first call
answers 500 and the second delivers the three sample records, which are
stored; with `sampleHost` every call answers 500, and the page has a hidden
error region and a visible loading indicator. -/
theorem fetchData_retries_witness :
    cachedArray recoveringHost (freshController (fun _ => none)) = none ∧
    (fetchData recoveringHost (freshController (fun _ => none))).state.fetchCalls = 2 ∧
    (fetchData recoveringHost (freshController (fun _ => none))).state.items = sampleItems ∧
    cachedArray sampleHost (freshController (fun _ => none)) = none ∧
    (fetchData sampleHost (freshController (fun _ => none))).state.fetchCalls = 3 ∧
    (init sampleHost (freshController (fun _ => none))).errorContainer =
      some { classList := ["error-container"], textContent := "Error: Failed to fetch blogs" } ∧
    (init sampleHost (freshController (fun _ => none))).loadingIndicator =
      some { classList := ["loading-indicator", "hidden"], textContent := "Loading" } :=
  have hr := (fetchData_retries recoveringHost (freshController (fun _ => none))
    (by decide)).2.1 1 sampleItems (by decide)
    (fun j hj => ⟨"Failed to fetch blogs", by
      have hj0 : j = 0 := by omega
      subst hj0
      exact Or.inr (Or.inl ⟨⟨_, rfl⟩, rfl⟩)⟩)
    rfl rfl
  have hw := fetchData_retries sampleHost (freshController (fun _ => none)) (by decide)
  ⟨by decide, hr.2.1, hr.2.2.1, by decide, (hw.2.2.2 (fun _ _ => ⟨_, rfl⟩)).2.1,
    by decide, by decide⟩

/-- Counterexample to C2 as stated: the first call answers with the three
sample records under a success status, the write to the store throws, and
`fetchData` does not stop there: it calls `fetch` three times and throws the
error of the store. -/
theorem fetchData_retries_full_store :
    cachedArray fullStoreHost (freshController (fun _ => none)) = none ∧
    fullStoreHost.fetch (freshController (fun _ => none)).apiUrl 0
      = .response true (.ok (.array sampleItems)) ∧
    (fetchData fullStoreHost (freshController (fun _ => none))).state.fetchCalls = 3 ∧
    (fetchData fullStoreHost (freshController (fun _ => none))).error
      = some "The quota has been exceeded." := by
  refine ⟨by decide, rfl, by decide, by decide⟩

/-! ## The JSON codec -/

namespace JSON

/-! ### Reading back what was written -/

theorem hexValue_hexDigit : ∀ n, n < 16 → hexValue (hexDigit n) = some n := by decide

theorem char_eq_of_toNat (c : Char) (n : Nat) (hn : c.toNat = n) : c = Char.ofNat n := by
  rw [← hn, Char.ofNat_toNat]

/-- An escaped character is read back as the character. -/
theorem readChar_escapeChar (c : Char) (rest : List Char) :
    readChar (escapeChar c ++ rest) = some (c, rest) := by
  unfold escapeChar
  split_ifs with h34 h92 h8 h9 h10 h12 h13 h32
  · rw [char_eq_of_toNat c 34 h34]; rfl
  · rw [char_eq_of_toNat c 92 h92]; rfl
  · rw [char_eq_of_toNat c 8 h8]; rfl
  · rw [char_eq_of_toNat c 9 h9]; rfl
  · rw [char_eq_of_toNat c 10 h10]; rfl
  · rw [char_eq_of_toNat c 12 h12]; rfl
  · rw [char_eq_of_toNat c 13 h13]; rfl
  · have hhi := hexValue_hexDigit (c.toNat / 16) (by omega)
    have hlo := hexValue_hexDigit (c.toNat % 16) (Nat.mod_lt _ (by omega))
    have h0 : hexValue '0' = some 0 := by decide
    have hsum : 4096 * 0 + 256 * 0 + 16 * (c.toNat / 16) + c.toNat % 16 = c.toNat := by omega
    have hu : hex4 '0' '0' (hexDigit (c.toNat / 16)) (hexDigit (c.toNat % 16)) = some c.toNat := by
      simp only [hex4, h0, hhi, hlo, hsum]
    have hread : readUnicode c.toNat rest = (c, rest) := by
      have h1 : ¬ (0xD800 ≤ c.toNat ∧ c.toNat < 0xDC00) := by omega
      have h2 : ¬ (0xDC00 ≤ c.toNat ∧ c.toNat < 0xE000) := by omega
      simp only [readUnicode, h1, h2, if_false, Char.ofNat_toNat]
    show readChar ('\\' :: 'u' :: '0' :: '0' :: hexDigit (c.toNat / 16) ::
      hexDigit (c.toNat % 16) :: rest) = some (c, rest)
    simp [readChar, hu, hread]
  · show readChar (c :: rest) = some (c, rest)
    simp [readChar, h92, h32]

/-- The text of an escaped character starts with a character that is no
quote. -/
theorem escapeChar_head (c : Char) :
    ∃ d tail, escapeChar c = d :: tail ∧ d.toNat ≠ 34 := by
  unfold escapeChar
  split_ifs with h34 h92 h8 h9 h10 h12 h13 h32
  all_goals first
    | exact ⟨'\\', _, rfl, by decide⟩
    | exact ⟨c, [], rfl, h34⟩

theorem escapeChar_length (c : Char) : 1 ≤ (escapeChar c).length := by
  obtain ⟨d, tail, hd, _⟩ := escapeChar_head c
  rw [hd]
  simp

theorem length_le_flatMap_escapeChar :
    ∀ chars : List Char, chars.length ≤ (chars.flatMap escapeChar).length
  | [] => by simp
  | c :: chars => by
    have h1 := escapeChar_length c
    have h2 := length_le_flatMap_escapeChar chars
    simp only [List.flatMap_cons, List.length_append, List.length_cons]
    omega

/-- The escaped text of `chars` and a closing quote are read back as `chars`. -/
theorem lexString_escaped :
    ∀ (chars rest : List Char) (fuel : Nat), chars.length < fuel →
      lexString fuel (chars.flatMap escapeChar ++ '"' :: rest) = some (chars, rest)
  | [], rest, fuel, hf => by
    obtain ⟨f, rfl⟩ : ∃ f, fuel = f + 1 := ⟨fuel - 1, by simp at hf; omega⟩
    simp [lexString]
  | c :: chars, rest, fuel, hf => by
    obtain ⟨f, rfl⟩ : ∃ f, fuel = f + 1 := ⟨fuel - 1, by simp at hf; omega⟩
    have hrec := lexString_escaped chars rest f (by simp at hf; omega)
    have hread := readChar_escapeChar c (chars.flatMap escapeChar ++ '"' :: rest)
    obtain ⟨d, tail, hd, hne⟩ := escapeChar_head c
    have htext : (c :: chars).flatMap escapeChar ++ '"' :: rest =
        d :: (tail ++ (chars.flatMap escapeChar ++ '"' :: rest)) := by
      simp [List.flatMap_cons, hd]
    rw [hd] at hread
    rw [htext]
    simp only [lexString, hne, if_false]
    simp only [List.cons_append] at hread
    rw [hread]
    simp only [hrec]

/-- A plain token is read back from its text. -/
theorem lexToken_render (t : Token) (ht : t.isPlain = true) (rest : List Char) :
    lexToken (t.render ++ rest) = some (t, rest) := by
  cases t with
  | str chars =>
    have hlen : chars.length < (chars.flatMap escapeChar ++ '"' :: rest).length := by
      have := length_le_flatMap_escapeChar chars
      simp only [List.length_append, List.length_cons]
      omega
    have hs := lexString_escaped chars rest _ hlen
    show lexToken ('"' :: ((chars.flatMap escapeChar ++ ['"']) ++ rest)) = _
    have happ : (chars.flatMap escapeChar ++ ['"']) ++ rest =
        chars.flatMap escapeChar ++ '"' :: rest := by simp
    rw [happ]
    have hq : ('"' : Char).toNat = 34 := by decide
    simp only [lexToken, hq]
    simp only [show ¬ (34 = 91) by decide, show ¬ (34 = 93) by decide,
      show ¬ (34 = 123) by decide, show ¬ (34 = 125) by decide, show ¬ (34 = 58) by decide,
      show ¬ (34 = 44) by decide, if_false, if_true, hs, Option.map_some']
  | num text => simp [Token.isPlain] at ht
  | bool b => simp [Token.isPlain] at ht
  | null => simp [Token.isPlain] at ht
  | _ => rfl

/-- The text of a plain token starts with a character that is no white
space. -/
theorem render_head (t : Token) (ht : t.isPlain = true) :
    ∃ c tail, t.render = c :: tail ∧ isWhitespace c = false := by
  cases t with
  | str chars => exact ⟨'"', _, rfl, by decide⟩
  | num text => simp [Token.isPlain] at ht
  | bool b => simp [Token.isPlain] at ht
  | null => simp [Token.isPlain] at ht
  | _ => exact ⟨_, _, rfl, by decide⟩

/-- The texts of plain tokens, one after the other, are read back as the
tokens, behind those read before. -/
theorem lexFrom_render :
    ∀ (tokens : List Token) (fuel : Nat) (found : List Token),
      (∀ t ∈ tokens, t.isPlain = true) → tokens.length < fuel →
      lexFrom fuel (tokens.flatMap Token.render) found = some (found.reverse ++ tokens)
  | [], fuel, found, _, hf => by
    obtain ⟨f, rfl⟩ : ∃ f, fuel = f + 1 := ⟨fuel - 1, by simp at hf; omega⟩
    simp [lexFrom]
  | t :: tokens, fuel, found, hplain, hf => by
    obtain ⟨f, rfl⟩ : ∃ f, fuel = f + 1 := ⟨fuel - 1, by simp at hf; omega⟩
    have ht := hplain t (List.mem_cons_self _ _)
    have hrec := lexFrom_render tokens f (t :: found)
      (fun u hu => hplain u (List.mem_cons_of_mem _ hu)) (by simp at hf; omega)
    obtain ⟨c, tail, hc, hws⟩ := render_head t ht
    have htok := lexToken_render t ht (tokens.flatMap Token.render)
    rw [hc] at htok
    have htext : (t :: tokens).flatMap Token.render =
        c :: (tail ++ tokens.flatMap Token.render) := by
      simp [List.flatMap_cons, hc]
    simp only [List.cons_append] at htok
    rw [htext]
    simp only [lexFrom, List.dropWhile_cons, hws, Bool.false_eq_true, if_false, htok, hrec,
      List.reverse_cons, List.append_assoc, List.singleton_append]

/-- The texts of plain tokens, one after the other, are read back as the
tokens. -/
theorem lex_render (tokens : List Token) (fuel : Nat)
    (hplain : ∀ t ∈ tokens, t.isPlain = true) (hf : tokens.length < fuel) :
    lex fuel (tokens.flatMap Token.render) = some tokens := by
  have h := lexFrom_render tokens fuel [] hplain hf
  simpa [lex] using h

theorem render_length (t : Token) (ht : t.isPlain = true) : 1 ≤ t.render.length := by
  obtain ⟨c, tail, hc, _⟩ := render_head t ht
  rw [hc]
  simp

theorem length_le_flatMap_render :
    ∀ tokens : List Token, (∀ t ∈ tokens, t.isPlain = true) →
      tokens.length ≤ (tokens.flatMap Token.render).length
  | [], _ => by simp
  | t :: tokens, hplain => by
    have h1 := render_length t (hplain t (List.mem_cons_self _ _))
    have h2 := length_le_flatMap_render tokens
      (fun u hu => hplain u (List.mem_cons_of_mem _ hu))
    simp only [List.flatMap_cons, List.length_append, List.length_cons]
    omega

theorem parses_string (s : String) : Parses (.str s) (stringTokens s) := by
  refine ⟨⟨_, _, rfl, by simp, by simp⟩, ?_⟩
  intro fuel hf r
  obtain ⟨f, rfl⟩ : ∃ f, fuel = f + 1 := ⟨fuel - 1, by simp [stringTokens] at hf; omega⟩
  simp [stringTokens, parseValue]

theorem Parses.length_pos {v : Value} {tokens : List Token} (hp : Parses v tokens) :
    1 ≤ tokens.length := by
  obtain ⟨⟨t, rest, rfl, _, _⟩, _⟩ := hp
  simp

/-- The elements of an array, each read back from its tokens, are read back
from their tokens with commas between them and a closing bracket behind. -/
theorem parseElements_commaSeparated :
    ∀ (elements : List (Value × List Token)), elements ≠ [] →
      (∀ e ∈ elements, Parses e.1 e.2) →
      ∀ fuel, (commaSeparated (elements.map (fun e => e.2))).length + 1 ≤ fuel → ∀ r,
        parseElements fuel (commaSeparated (elements.map (fun e => e.2)) ++ .rbracket :: r) =
          some (elements.map (fun e => e.1), r)
  | [], hne, _, _, _, _ => absurd rfl hne
  | [e], _, hp, fuel, hf, r => by
    obtain ⟨f, rfl⟩ : ∃ f, fuel = f + 1 := ⟨fuel - 1, by omega⟩
    have he := (hp e (List.mem_cons_self _ _)).2 f
      (by simp only [List.map_cons, List.map_nil, commaSeparated] at hf; omega) (.rbracket :: r)
    simp only [List.map_cons, List.map_nil, commaSeparated, parseElements, he]
  | e :: e2 :: more, _, hp, fuel, hf, r => by
    obtain ⟨f, rfl⟩ : ∃ f, fuel = f + 1 := ⟨fuel - 1, by omega⟩
    simp only [List.map_cons, commaSeparated, List.length_append, List.length_cons] at hf
    have he := (hp e (List.mem_cons_self _ _)).2 f (by omega)
      (.comma :: (commaSeparated ((e2 :: more).map (fun e => e.2)) ++ .rbracket :: r))
    have hrec := parseElements_commaSeparated (e2 :: more) (by simp)
      (fun x hx => hp x (List.mem_cons_of_mem _ hx)) f
      (by simp only [List.map_cons]; omega) r
    have htext : commaSeparated ((e :: e2 :: more).map (fun e => e.2)) ++ .rbracket :: r =
        e.2 ++ .comma :: (commaSeparated ((e2 :: more).map (fun e => e.2)) ++ .rbracket :: r) := by
      simp [commaSeparated]
    rw [htext]
    show parseElements (f + 1) _ = some (e.1 :: (e2 :: more).map (fun e => e.1), r)
    simp only [parseElements, he, hrec]

/-- An array of values, each read back from its tokens, is read back from
the tokens of the array. -/
theorem parses_array (elements : List (Value × List Token))
    (hp : ∀ e ∈ elements, Parses e.1 e.2) :
    Parses (.arr (elements.map (fun e => e.1))) (arrayTokens (elements.map (fun e => e.2))) := by
  refine ⟨⟨_, _, rfl, by simp, by simp⟩, ?_⟩
  intro fuel hf r
  obtain ⟨f, rfl⟩ : ∃ f, fuel = f + 1 :=
    ⟨fuel - 1, by simp only [arrayTokens, List.length_cons] at hf; omega⟩
  cases elements with
  | nil => simp [arrayTokens, commaSeparated, parseValue]
  | cons e more =>
    have hrec := parseElements_commaSeparated (e :: more) (by simp) hp f
      (by simp only [arrayTokens, List.length_cons, List.length_append, List.length_nil] at hf
          omega) r
    obtain ⟨⟨t, rest, ht, hnb, _⟩, _⟩ := hp e (List.mem_cons_self _ _)
    have hhead : ∃ rest2, commaSeparated ((e :: more).map (fun e => e.2)) = t :: rest2 := by
      cases more with
      | nil => exact ⟨rest, by simp [commaSeparated, ht]⟩
      | cons e2 more2 => exact ⟨_, by simp only [List.map_cons, commaSeparated, ht]; rfl⟩
    obtain ⟨rest2, hcs⟩ := hhead
    have htext : arrayTokens ((e :: more).map (fun e => e.2)) ++ r =
        .lbracket :: (commaSeparated ((e :: more).map (fun e => e.2)) ++ .rbracket :: r) := by
      simp [arrayTokens]
    rw [htext]
    rw [hcs] at hrec ⊢
    simp only [List.cons_append] at hrec
    cases t <;> first
      | exact absurd rfl hnb
      | simp only [List.cons_append, parseValue, hrec]

/-- The properties of an object, each value read back from its tokens, are
read back from their tokens with commas between them and a closing brace
behind. -/
theorem parseMembers_commaSeparated :
    ∀ (members : List (String × Value × List Token)), members ≠ [] →
      (∀ m ∈ members, Parses m.2.1 m.2.2) →
      ∀ fuel, (commaSeparated (members.map (fun m => memberTokens m.1 m.2.2))).length + 1 ≤ fuel →
        ∀ r, parseMembers fuel
          (commaSeparated (members.map (fun m => memberTokens m.1 m.2.2)) ++ .rbrace :: r) =
            some (members.map (fun m => (m.1, m.2.1)), r)
  | [], hne, _, _, _, _ => absurd rfl hne
  | [m], _, hp, fuel, hf, r => by
    obtain ⟨f, rfl⟩ : ∃ f, fuel = f + 1 := ⟨fuel - 1, by omega⟩
    simp only [List.map_cons, List.map_nil, commaSeparated, memberTokens, List.length_cons] at hf
    have hm := (hp m (List.mem_cons_self _ _)).2 f (by omega) (.rbrace :: r)
    show parseMembers (f + 1) (.str m.1.data :: .colon :: (m.2.2 ++ .rbrace :: r)) =
      some ([(m.1, m.2.1)], r)
    simp only [parseMembers, hm]
  | m :: m2 :: more, _, hp, fuel, hf, r => by
    obtain ⟨f, rfl⟩ : ∃ f, fuel = f + 1 := ⟨fuel - 1, by omega⟩
    simp only [List.map_cons, commaSeparated, memberTokens, List.length_append,
      List.length_cons] at hf
    have hm := (hp m (List.mem_cons_self _ _)).2 f (by omega)
      (.comma :: (commaSeparated ((m2 :: more).map (fun m => memberTokens m.1 m.2.2)) ++
        .rbrace :: r))
    have hrec := parseMembers_commaSeparated (m2 :: more) (by simp)
      (fun x hx => hp x (List.mem_cons_of_mem _ hx)) f
      (by simp only [List.map_cons, memberTokens, List.length_cons]; omega) r
    have htext : commaSeparated ((m :: m2 :: more).map (fun m => memberTokens m.1 m.2.2)) ++
        .rbrace :: r =
        .str m.1.data :: .colon :: (m.2.2 ++ .comma ::
          (commaSeparated ((m2 :: more).map (fun m => memberTokens m.1 m.2.2)) ++
            .rbrace :: r)) := by
      simp [commaSeparated, memberTokens]
    rw [htext]
    show parseMembers (f + 1) _ = some ((m.1, m.2.1) :: (m2 :: more).map (fun m => (m.1, m.2.1)), r)
    simp only [parseMembers, hm, hrec]

/-- An object of values, each read back from its tokens, is read back from
the tokens of the object. -/
theorem parses_object (members : List (String × Value × List Token))
    (hp : ∀ m ∈ members, Parses m.2.1 m.2.2) :
    Parses (.obj (members.map (fun m => (m.1, m.2.1))))
      (objectTokens (members.map (fun m => memberTokens m.1 m.2.2))) := by
  refine ⟨⟨_, _, rfl, by simp, by simp⟩, ?_⟩
  intro fuel hf r
  obtain ⟨f, rfl⟩ : ∃ f, fuel = f + 1 :=
    ⟨fuel - 1, by simp only [objectTokens, List.length_cons] at hf; omega⟩
  cases members with
  | nil => simp [objectTokens, commaSeparated, parseValue]
  | cons m more =>
    have hrec := parseMembers_commaSeparated (m :: more) (by simp) hp f
      (by simp only [objectTokens, List.length_cons, List.length_append, List.length_nil] at hf
          omega) r
    have hhead : ∃ rest2, commaSeparated ((m :: more).map (fun m => memberTokens m.1 m.2.2)) =
        .str m.1.data :: rest2 := by
      cases more with
      | nil => exact ⟨_, rfl⟩
      | cons m2 more2 => exact ⟨_, rfl⟩
    obtain ⟨rest2, hcs⟩ := hhead
    have htext : objectTokens ((m :: more).map (fun m => memberTokens m.1 m.2.2)) ++ r =
        .lbrace :: (commaSeparated ((m :: more).map (fun m => memberTokens m.1 m.2.2)) ++
          .rbrace :: r) := by
      simp [objectTokens]
    rw [htext]
    rw [hcs] at hrec ⊢
    simp only [List.cons_append] at hrec
    simp only [List.cons_append, parseValue, hrec]

/-- The members of a record, as names, values and tokens. -/
theorem itemTokens_eq (item : BlogItem) :
    ∃ members : List (String × Value × List Token),
      (∀ m ∈ members, Parses m.2.1 m.2.2) ∧
      itemValue item = .obj (members.map (fun m => (m.1, m.2.1))) ∧
      itemTokens item = objectTokens (members.map (fun m => memberTokens m.1 m.2.2)) := by
  have hs := parses_string
  have htags : ∀ ts : List String,
      Parses (.arr (ts.map Value.str)) (arrayTokens (ts.map stringTokens)) := by
    intro ts
    have := parses_array (ts.map (fun t => (Value.str t, stringTokens t)))
      (by
        intro e he
        obtain ⟨t, _, rfl⟩ := List.mem_map.1 he
        exact hs t)
    simpa [List.map_map, Function.comp] using this
  obtain ⟨title, content, author, category, tags, image, date, time⟩ := item
  cases category with
  | none =>
    cases tags with
    | none =>
      refine ⟨[("title", .str title, stringTokens title),
        ("content", .str content, stringTokens content),
        ("author", .str author, stringTokens author),
        ("image", .str image, stringTokens image),
        ("published_date", .str date, stringTokens date),
        ("reading_time", .str time, stringTokens time)], ?_, rfl, rfl⟩
      intro m hm
      simp only [List.mem_cons, List.mem_singleton, List.not_mem_nil, or_false] at hm
      rcases hm with rfl | rfl | rfl | rfl | rfl | rfl <;> exact hs _
    | some ts =>
      refine ⟨[("title", .str title, stringTokens title),
        ("content", .str content, stringTokens content),
        ("author", .str author, stringTokens author),
        ("tags", .arr (ts.map Value.str), arrayTokens (ts.map stringTokens)),
        ("image", .str image, stringTokens image),
        ("published_date", .str date, stringTokens date),
        ("reading_time", .str time, stringTokens time)], ?_, rfl, rfl⟩
      intro m hm
      simp only [List.mem_cons, List.mem_singleton, List.not_mem_nil, or_false] at hm
      rcases hm with rfl | rfl | rfl | rfl | rfl | rfl | rfl <;>
        first | exact hs _ | exact htags ts
  | some c =>
    cases tags with
    | none =>
      refine ⟨[("title", .str title, stringTokens title),
        ("content", .str content, stringTokens content),
        ("author", .str author, stringTokens author),
        ("category", .str c, stringTokens c),
        ("image", .str image, stringTokens image),
        ("published_date", .str date, stringTokens date),
        ("reading_time", .str time, stringTokens time)], ?_, rfl, rfl⟩
      intro m hm
      simp only [List.mem_cons, List.mem_singleton, List.not_mem_nil, or_false] at hm
      rcases hm with rfl | rfl | rfl | rfl | rfl | rfl | rfl <;> exact hs _
    | some ts =>
      refine ⟨[("title", .str title, stringTokens title),
        ("content", .str content, stringTokens content),
        ("author", .str author, stringTokens author),
        ("category", .str c, stringTokens c),
        ("tags", .arr (ts.map Value.str), arrayTokens (ts.map stringTokens)),
        ("image", .str image, stringTokens image),
        ("published_date", .str date, stringTokens date),
        ("reading_time", .str time, stringTokens time)], ?_, rfl, rfl⟩
      intro m hm
      simp only [List.mem_cons, List.mem_singleton, List.not_mem_nil, or_false] at hm
      rcases hm with rfl | rfl | rfl | rfl | rfl | rfl | rfl | rfl <;>
        first | exact hs _ | exact htags ts

/-- A record is read back from its tokens as its value. -/
theorem parses_item (item : BlogItem) : Parses (itemValue item) (itemTokens item) := by
  obtain ⟨members, hp, hv, ht⟩ := itemTokens_eq item
  rw [hv, ht]
  exact parses_object members hp

/-- The value of a record is, to the controller, the record. -/
theorem toItem_itemValue (item : BlogItem) : toItem (itemValue item) = item := by
  have hmap : ∀ ts : List String, (ts.map Value.str).map (fun e => text (some e)) = ts := by
    intro ts
    induction ts with
    | nil => rfl
    | cons a ts ih => simp only [List.map_cons, ih]; rfl
  obtain ⟨title, content, author, category, tags, image, date, time⟩ := item
  cases category <;> cases tags <;>
    simp [toItem, itemValue, Value.get, text, optionalString, optionalStrings] <;>
    (rw [← List.map_map]; exact hmap _)

theorem plain_commaSeparated :
    ∀ parts : List (List Token), (∀ p ∈ parts, ∀ t ∈ p, t.isPlain = true) →
      ∀ t ∈ commaSeparated parts, t.isPlain = true
  | [], _, t, ht => by simp [commaSeparated] at ht
  | [p], hp, t, ht => hp p (List.mem_cons_self _ _) t (by simpa [commaSeparated] using ht)
  | p :: q :: more, hp, t, ht => by
    simp only [commaSeparated, List.mem_append, List.mem_cons] at ht
    rcases ht with ht | rfl | ht
    · exact hp p (List.mem_cons_self _ _) t ht
    · rfl
    · exact plain_commaSeparated (q :: more) (fun x hx => hp x (List.mem_cons_of_mem _ hx)) t ht

theorem plain_arrayTokens (elements : List (List Token))
    (hp : ∀ p ∈ elements, ∀ t ∈ p, t.isPlain = true) :
    ∀ t ∈ arrayTokens elements, t.isPlain = true := by
  intro t ht
  simp only [arrayTokens, List.mem_cons, List.mem_append, List.mem_singleton,
    List.not_mem_nil, or_false] at ht
  rcases ht with rfl | ht | rfl
  · rfl
  · exact plain_commaSeparated elements hp t ht
  · rfl

theorem plain_objectTokens (members : List (List Token))
    (hp : ∀ p ∈ members, ∀ t ∈ p, t.isPlain = true) :
    ∀ t ∈ objectTokens members, t.isPlain = true := by
  intro t ht
  simp only [objectTokens, List.mem_cons, List.mem_append, List.mem_singleton,
    List.not_mem_nil, or_false] at ht
  rcases ht with rfl | ht | rfl
  · rfl
  · exact plain_commaSeparated members hp t ht
  · rfl

theorem plain_stringTokens (s : String) : ∀ t ∈ stringTokens s, t.isPlain = true := by
  intro t ht
  simp only [stringTokens, List.mem_singleton] at ht
  subst ht
  rfl

theorem plain_memberTokens (key : String) (value : List Token)
    (hv : ∀ t ∈ value, t.isPlain = true) : ∀ t ∈ memberTokens key value, t.isPlain = true := by
  intro t ht
  simp only [memberTokens, List.mem_cons] at ht
  rcases ht with rfl | rfl | ht
  · rfl
  · rfl
  · exact hv t ht

/-- Every token of a record is plain. -/
theorem itemTokens_plain (item : BlogItem) : ∀ t ∈ itemTokens item, t.isPlain = true := by
  have hs := fun (key s : String) => plain_memberTokens key (stringTokens s) (plain_stringTokens s)
  have htags := fun (ts : List String) => plain_memberTokens "tags"
    (arrayTokens (ts.map stringTokens))
    (plain_arrayTokens _ (by
      intro p hp
      obtain ⟨s, _, rfl⟩ := List.mem_map.1 hp
      exact plain_stringTokens s))
  apply plain_objectTokens
  intro p hp
  obtain ⟨title, content, author, category, tags, image, date, time⟩ := item
  cases category <;> cases tags <;>
    simp only [itemMembers, List.cons_append, List.nil_append, List.append_nil,
      List.mem_cons, List.mem_singleton, List.not_mem_nil, or_false] at hp
  all_goals
    rcases hp with rfl | hp
    · exact hs _ _
    repeat' rcases hp with rfl | hp
    all_goals first
      | exact hs _ _
      | exact htags _

/-- The text `stringify` writes for an array of records is read back by
`parse` as the array. -/
theorem parse_stringify (data : List BlogItem) : parse (stringify data) = some (.array data) := by
  have hplain : ∀ t ∈ arrayTokens (data.map itemTokens), t.isPlain = true :=
    plain_arrayTokens _ (by
      intro p hp
      obtain ⟨item, _, rfl⟩ := List.mem_map.1 hp
      exact itemTokens_plain item)
  have hlen := length_le_flatMap_render _ hplain
  have hlex := lex_render (arrayTokens (data.map itemTokens))
    ((stringify data).length + 1) hplain (by
      show _ < ((arrayTokens (data.map itemTokens)).flatMap Token.render).length + 1
      omega)
  have hparses : Parses (.arr (data.map itemValue)) (arrayTokens (data.map itemTokens)) := by
    have hp := parses_array (data.map (fun item => (itemValue item, itemTokens item)))
      (by
        intro e he
        obtain ⟨item, _, rfl⟩ := List.mem_map.1 he
        exact parses_item item)
    rw [List.map_map, List.map_map] at hp
    exact hp
  have hvalue := hparses.2 (arrayTokens (data.map itemTokens)).length (Nat.le_refl _) []
  rw [List.append_nil] at hvalue
  have hitems : (data.map itemValue).map toItem = data := by
    rw [List.map_map]
    have : toItem ∘ itemValue = id := funext toItem_itemValue
    rw [this, List.map_id]
  show (match lex ((stringify data).length + 1) (stringify data).data with
    | none => none
    | some tokens =>
      match parseValue tokens.length tokens with
      | some (v, []) => some (decode v)
      | _ => none) = some (.array data)
  have hdata : (stringify data).data = (arrayTokens (data.map itemTokens)).flatMap Token.render :=
    rfl
  rw [hdata, hlex]
  simp only [hvalue, decode, hitems]

end JSON

/-- The text `JSON.stringify` writes is never empty. -/
theorem JSON.stringify_ne_empty (data : List BlogItem) : JSON.stringify data ≠ "" := by
  intro hempty
  have hdata : (JSON.stringify data).data = [] := by rw [hempty]
  simp [JSON.stringify, JSON.arrayTokens, JSON.Token.render] at hdata

/-- C3, as amended: on a host whose codec is `JSON.parse` and
`JSON.stringify`, when, with no valid cache, the first call that succeeds
delivers the array `D` and the write of `D` to the store does not throw,
`fetchData` leaves `JSON.stringify(D)` under the cache key whatever was there
before and touches no other key; `JSON.parse` reads that entry back as `D`;
and a second `fetchData` returns with `items` and `filteredItems` equal to
`D` and makes no call of `fetch`. -/
theorem fetchData_round_trip (h : Host) (s : State) (k : Nat) (D : List BlogItem)
    (hparse : h.jsonParse = JSON.parse) (hstringify : h.jsonStringify = JSON.stringify)
    (hmiss : cachedArray h s = none) (hk : k < 3)
    (hfail : ∀ j, j < k → ∃ e, (h.fetch s.apiUrl (s.fetchCalls + j)).FailsWith e)
    (hok : h.fetch s.apiUrl (s.fetchCalls + k) = .response true (.ok (.array D)))
    (hset : h.setItemError s.cacheKey (JSON.stringify D) = none) :
    (fetchData h s).state.cacheKey = s.cacheKey ∧
    (fetchData h s).state.localStorage.getItem s.cacheKey = some (JSON.stringify D) ∧
    (∀ key, key ≠ s.cacheKey →
      (fetchData h s).state.localStorage.getItem key = s.localStorage.getItem key) ∧
    (∃ entry, (fetchData h s).state.localStorage.getItem s.cacheKey = some entry ∧
      JSON.parse entry = some (.array D)) ∧
    (fetchData h (fetchData h s).state).error = none ∧
    (fetchData h (fetchData h s).state).state.items = D ∧
    (fetchData h (fetchData h s).state).state.filteredItems = D ∧
    (fetchData h (fetchData h s).state).state.fetchCalls = (fetchData h s).state.fetchCalls := by
  have hfirst := fetchLoop_first_success h s k D hk hfail hok (by rw [hstringify]; exact hset)
  have hstate : (fetchData h s).state = stored h { s with fetchCalls := s.fetchCalls + k } D := by
    rw [fetchData_miss h s hmiss, hfirst]
  have hkey : (fetchData h s).state.cacheKey = s.cacheKey := by rw [hstate]; rfl
  have hentry : (fetchData h s).state.localStorage.getItem s.cacheKey =
      some (JSON.stringify D) := by
    rw [hstate]; simp [stored, Storage.getItem, Storage.setItem, hstringify]
  have hagain := fetchData_of_cached h (fetchData h s).state D
    (cachedArray_eq_some (by rw [hkey]; exact hentry) (JSON.stringify_ne_empty D)
      (by rw [hparse]; exact JSON.parse_stringify D))
  refine ⟨hkey, hentry, ?_, ⟨_, hentry, JSON.parse_stringify D⟩, ?_, ?_, ?_, ?_⟩
  · intro key hne
    rw [hstate]
    simp [stored, Storage.getItem, Storage.setItem, hne]
  · rw [hagain]
  · rw [hagain]
  · rw [hagain]
  · rw [hagain]

set_option maxRecDepth 100000 in
/-- Witness of C3: the store holds a text that is no JSON, the first call
answers 500 and the second delivers the three sample records; the entry
written is their JSON text. -/
theorem fetchData_round_trip_witness :
    cachedArray jsonHost (freshController (singleEntry "blogs_cache_v1" "oops")) = none ∧
    JSON.stringify (sampleItems.take 1) =
      "[\x7b\"title\":\"Intro to CSS\",\"content\":\"text\",\"author\":\"author\"," ++
      "\"category\":\"Frontend\",\"tags\":[\"css\",\"web\"],\"image\":\"img.png\"," ++
      "\"published_date\":\"3\",\"reading_time\":\"5 min\"\x7d]" ∧
    (fetchData jsonHost
      (freshController (singleEntry "blogs_cache_v1" "oops"))).state.localStorage.getItem
        "blogs_cache_v1" = some (JSON.stringify sampleItems) ∧
    JSON.parse (JSON.stringify sampleItems) = some (.array sampleItems) ∧
    (fetchData jsonHost (fetchData jsonHost
      (freshController (singleEntry "blogs_cache_v1" "oops"))).state).state.items = sampleItems ∧
    (fetchData jsonHost (fetchData jsonHost
      (freshController (singleEntry "blogs_cache_v1" "oops"))).state).state.fetchCalls = 2 :=
  have hw := fetchData_round_trip jsonHost
    (freshController (singleEntry "blogs_cache_v1" "oops")) 1 sampleItems rfl rfl
    (by decide) (by decide)
    (fun j hj => ⟨"Failed to fetch blogs", by
      have hj0 : j = 0 := by omega
      subst hj0
      exact Or.inr (Or.inl ⟨⟨_, rfl⟩, rfl⟩)⟩)
    rfl rfl
  ⟨by decide, by decide, hw.2.1, by decide, hw.2.2.2.2.2.1,
    hw.2.2.2.2.2.2.2.trans (by decide)⟩

/-- Counterexample to C3 as stated: the first call delivers the three sample
records under a success status, the write to the store throws, and after
`fetchData` the store holds no entry under the cache key. -/
theorem fetchData_round_trip_full_store :
    fullStoreJsonHost.fetch (freshController (fun _ => none)).apiUrl 0
      = .response true (.ok (.array sampleItems)) ∧
    (fetchData fullStoreJsonHost (freshController (fun _ => none))).state.items = sampleItems ∧
    (fetchData fullStoreJsonHost (freshController (fun _ => none))).state.localStorage.getItem
      "blogs_cache_v1" = none ∧
    (fetchData fullStoreJsonHost (freshController (fun _ => none))).state.localStorage.getItem
      "blogs_cache_v1" ≠ some (JSON.stringify sampleItems) := by
  refine ⟨rfl, by decide, by decide, ?_⟩
  have hnone : (fetchData fullStoreJsonHost
      (freshController (fun _ => none))).state.localStorage.getItem "blogs_cache_v1" = none := by
    decide
  rw [hnone]
  exact fun hc => Option.noConfusion hc

/-! ## Sorting -/

section Sorting

variable {α : Type} (r : α → α → Prop) [DecidableRel r]

/-- Inserting into a sorted list keeps it sorted, when `r` compares the new
element with every member and is transitive from it. -/
theorem pairwise_orderedInsert_of (a : α) :
    ∀ t : List α, (∀ x ∈ t, r a x ∨ r x a) → (∀ x ∈ t, ∀ y ∈ t, r a x → r x y → r a y) →
      t.Pairwise r → (t.orderedInsert r a).Pairwise r
  | [], _, _, _ => by simp [List.orderedInsert]
  | b :: t, htot, htrans, hp => by
    rw [List.pairwise_cons] at hp
    by_cases hab : r a b
    · rw [List.orderedInsert_of_le r t hab]
      refine List.Pairwise.cons ?_ (List.Pairwise.cons hp.1 hp.2)
      intro x hx
      rcases List.mem_cons.1 hx with rfl | hxt
      · exact hab
      · exact htrans b (List.mem_cons_self _ _) x (List.mem_cons_of_mem _ hxt) hab (hp.1 x hxt)
    · have hba : r b a := (htot b (List.mem_cons_self _ _)).resolve_left hab
      have hrec := pairwise_orderedInsert_of a t
        (fun x hx => htot x (List.mem_cons_of_mem _ hx))
        (fun x hx y hy => htrans x (List.mem_cons_of_mem _ hx) y (List.mem_cons_of_mem _ hy))
        hp.2
      have hstep : List.orderedInsert r a (b :: t) = b :: List.orderedInsert r a t := by
        simp [List.orderedInsert, hab]
      rw [hstep]
      refine List.Pairwise.cons ?_ hrec
      intro y hy
      rcases (List.mem_orderedInsert r).1 hy with rfl | hyt
      · exact hba
      · exact hp.1 y hyt

/-- Insertion sort yields a sorted list, when `r` is total and transitive on
the members of the list. -/
theorem pairwise_insertionSort_of :
    ∀ l : List α, (∀ x ∈ l, ∀ y ∈ l, r x y ∨ r y x) →
      (∀ x ∈ l, ∀ y ∈ l, ∀ z ∈ l, r x y → r y z → r x z) → (l.insertionSort r).Pairwise r
  | [], _, _ => by simp
  | a :: l, htot, htrans => by
    have hrec := pairwise_insertionSort_of l
      (fun x hx y hy => htot x (List.mem_cons_of_mem _ hx) y (List.mem_cons_of_mem _ hy))
      (fun x hx y hy z hz => htrans x (List.mem_cons_of_mem _ hx) y (List.mem_cons_of_mem _ hy)
        z (List.mem_cons_of_mem _ hz))
    have hmem : ∀ x, x ∈ l.insertionSort r → x ∈ a :: l := fun x hx =>
      List.mem_cons_of_mem _ ((List.mem_insertionSort r).1 hx)
    show (List.orderedInsert r a (l.insertionSort r)).Pairwise r
    exact pairwise_orderedInsert_of r a _
      (fun x hx => htot a (List.mem_cons_self _ _) x (hmem x hx))
      (fun x hx y hy => htrans a (List.mem_cons_self _ _) x (hmem x hx) y (hmem y hy))
      hrec

end Sorting

theorem jsSort_perm {α : Type} (comparefn : α → α → JSNum) (xs : List α) :
    (jsSort comparefn xs).Perm xs :=
  List.perm_insertionSort _ xs

/-- On a list whose keys are all numbers, `sort` by the difference of the
keys leaves the keys non-decreasing. -/
theorem jsSort_by_key {α : Type} (key : α → JSNum) (xs : List α)
    (hkey : ∀ a ∈ xs, key a ≠ none) :
    (jsSort (fun a b => JSNum.sub (key a) (key b)) xs).Pairwise
      (fun a b => JSNum.le (key a) (key b) = true) := by
  have hrel : ∀ a ∈ xs, ∀ b ∈ xs,
      (sortCompare (fun a b => JSNum.sub (key a) (key b)) a b ≤ 0 ↔
        JSNum.le (key a) (key b) = true) := by
    intro a ha b hb
    obtain ⟨x, hx⟩ := Option.ne_none_iff_exists'.1 (hkey a ha)
    obtain ⟨y, hy⟩ := Option.ne_none_iff_exists'.1 (hkey b hb)
    simp [sortCompare, hx, hy, JSNum.sub, JSNum.le]
  have hval : ∀ a ∈ xs, ∃ x : Int, key a = some x := fun a ha =>
    Option.ne_none_iff_exists'.1 (hkey a ha)
  have hsorted := pairwise_insertionSort_of
    (fun a b => sortCompare (fun a b => JSNum.sub (key a) (key b)) a b ≤ 0) xs
    (by
      intro a ha b hb
      obtain ⟨x, hx⟩ := hval a ha
      obtain ⟨y, hy⟩ := hval b hb
      simp only [sortCompare, hx, hy, JSNum.sub, Option.getD_some]
      omega)
    (by
      intro a ha b hb c hc
      obtain ⟨x, hx⟩ := hval a ha
      obtain ⟨y, hy⟩ := hval b hb
      obtain ⟨z, hz⟩ := hval c hc
      simp only [sortCompare, hx, hy, hz, JSNum.sub, Option.getD_some]
      omega)
  refine List.Pairwise.imp_of_mem ?_ hsorted
  intro a b ha hb hab
  have ha' : a ∈ xs := (jsSort_perm _ xs).mem_iff.1 ha
  have hb' : b ∈ xs := (jsSort_perm _ xs).mem_iff.1 hb
  exact (hrel a ha' b hb').1 hab

/-- On a list whose keys are all numbers, `sort` by the difference of the
keys taken the other way round leaves the keys non-increasing. -/
theorem jsSort_by_key_descending {α : Type} (key : α → JSNum) (xs : List α)
    (hkey : ∀ a ∈ xs, key a ≠ none) :
    (jsSort (fun a b => JSNum.sub (key b) (key a)) xs).Pairwise
      (fun a b => JSNum.le (key b) (key a) = true) := by
  have hval : ∀ a ∈ xs, ∃ x : Int, key a = some x := fun a ha =>
    Option.ne_none_iff_exists'.1 (hkey a ha)
  have hsorted := pairwise_insertionSort_of
    (fun a b => sortCompare (fun a b => JSNum.sub (key b) (key a)) a b ≤ 0) xs
    (by
      intro a ha b hb
      obtain ⟨x, hx⟩ := hval a ha
      obtain ⟨y, hy⟩ := hval b hb
      simp only [sortCompare, hx, hy, JSNum.sub, Option.getD_some]
      omega)
    (by
      intro a ha b hb c hc
      obtain ⟨x, hx⟩ := hval a ha
      obtain ⟨y, hy⟩ := hval b hb
      obtain ⟨z, hz⟩ := hval c hc
      simp only [sortCompare, hx, hy, hz, JSNum.sub, Option.getD_some]
      omega)
  refine List.Pairwise.imp_of_mem ?_ hsorted
  intro a b ha hb hab
  obtain ⟨x, hx⟩ := hval a ((jsSort_perm _ xs).mem_iff.1 ha)
  obtain ⟨y, hy⟩ := hval b ((jsSort_perm _ xs).mem_iff.1 hb)
  simp only [sortCompare, hx, hy, JSNum.sub, Option.getD_some] at hab
  simp only [hx, hy, JSNum.le, decide_eq_true_eq]
  omega

/-- With a consistent collation, `sort` by `localeCompare` of a string key
leaves the keys non-decreasing in the collation. -/
theorem jsSort_by_collation {α : Type} (h : Host) (hc : ConsistentCollation h)
    (key : α → String) (xs : List α) :
    (jsSort (fun a b => some (h.localeCompare (key a) (key b))) xs).Pairwise
      (fun a b => h.localeCompare (key a) (key b) ≤ 0) := by
  have hsorted := pairwise_insertionSort_of
    (fun a b => sortCompare (fun a b => some (h.localeCompare (key a) (key b))) a b ≤ 0) xs
    (by
      intro a _ b _
      simp only [sortCompare, Option.getD_some]
      exact hc.1 (key a) (key b))
    (by
      intro a _ b _ c _
      simp only [sortCompare, Option.getD_some]
      exact hc.2 (key a) (key b) (key c))
  refine List.Pairwise.imp ?_ hsorted
  intro a b hab
  simpa [sortCompare] using hab

theorem onSortChange_date (h : Host) (s : State) :
    (onSortChange h "date" s).filteredItems =
      jsSort (fun a b => JSNum.sub (h.dateValue b.published_date) (h.dateValue a.published_date))
        s.filteredItems := by
  simp [onSortChange, render]

theorem onSortChange_reading_time (h : Host) (s : State) :
    (onSortChange h "reading_time" s).filteredItems =
      jsSort (fun a b => JSNum.sub (parseInt a.reading_time) (parseInt b.reading_time))
        s.filteredItems := by
  simp [onSortChange, render]

theorem onSortChange_category (h : Host) (s : State) :
    (onSortChange h "category" s).filteredItems =
      jsSort (fun a b => some (h.localeCompare (a.category.getD "") (b.category.getD "")))
        s.filteredItems := by
  simp [onSortChange, render]

theorem onSortChange_perm (h : Host) (value : String) (s : State) :
    (onSortChange h value s).filteredItems.Perm s.filteredItems := by
  simp only [onSortChange, render]
  split_ifs
  · exact jsSort_perm _ _
  · exact jsSort_perm _ _
  · exact jsSort_perm _ _
  · exact List.Perm.refl _

theorem lexLe_total : ∀ x y : List Char, lexLe x y = true ∨ lexLe y x = true
  | [], _ => Or.inl rfl
  | _ :: _, [] => Or.inr rfl
  | a :: x, b :: y => by
    simp only [lexLe, Bool.or_eq_true, Bool.and_eq_true, decide_eq_true_eq]
    rcases lexLe_total x y with hxy | hyx
    · rcases Nat.lt_trichotomy a.toNat b.toNat with hlt | heq | hgt
      · exact Or.inl (Or.inl hlt)
      · exact Or.inl (Or.inr ⟨heq, hxy⟩)
      · exact Or.inr (Or.inl hgt)
    · rcases Nat.lt_trichotomy a.toNat b.toNat with hlt | heq | hgt
      · exact Or.inl (Or.inl hlt)
      · exact Or.inr (Or.inr ⟨heq.symm, hyx⟩)
      · exact Or.inr (Or.inl hgt)

theorem lexLe_trans : ∀ x y z : List Char, lexLe x y = true → lexLe y z = true →
    lexLe x z = true
  | [], _, _ => fun _ _ => rfl
  | _ :: _, [], _ => fun hxy _ => by simp [lexLe] at hxy
  | _ :: _, _ :: _, [] => fun _ hyz => by simp [lexLe] at hyz
  | a :: x, b :: y, c :: z => by
    simp only [lexLe, Bool.or_eq_true, Bool.and_eq_true, decide_eq_true_eq]
    intro hxy hyz
    rcases hxy with hab | ⟨hab, hxy⟩
    · rcases hyz with hbc | ⟨hbc, _⟩
      · exact Or.inl (by omega)
      · exact Or.inl (by omega)
    · rcases hyz with hbc | ⟨hbc, hyz⟩
      · exact Or.inl (by omega)
      · exact Or.inr ⟨by omega, lexLe_trans x y z hxy hyz⟩

/-- The collation of `sampleHost` is the order `lexLe`. -/
theorem sampleHost_localeCompare_le (x y : String) :
    sampleHost.localeCompare x y ≤ 0 ↔ lexLe x.data y.data = true := by
  show (if lexLe x.data y.data then (if lexLe y.data x.data then (0 : Int) else -1) else 1) ≤ 0
    ↔ lexLe x.data y.data = true
  split_ifs with h1 h2 <;> simp [h1]

theorem sampleHost_consistent : ConsistentCollation sampleHost := by
  constructor
  · intro x y
    rw [sampleHost_localeCompare_le, sampleHost_localeCompare_le]
    exact lexLe_total x.data y.data
  · intro x y z
    rw [sampleHost_localeCompare_le, sampleHost_localeCompare_le, sampleHost_localeCompare_le]
    exact lexLe_trans x.data y.data z.data

theorem sampleHost_empty_least (x : String) (hx : x ≠ "") :
    0 < sampleHost.localeCompare x "" := by
  obtain ⟨d⟩ := x
  cases d with
  | nil => exact absurd rfl hx
  | cons c d =>
    show 0 < (if lexLe (c :: d) [] then (if lexLe [] (c :: d) then (0 : Int) else -1) else 1)
    simp [lexLe]

/-- C4, as amended: `onSortChange` leaves a permutation of the working
collection.  For `reading_time` the reading times do not decrease, provided
`parseInt` reads every one of them as a number; for `date` the time values do
not increase, provided every date is valid; for `category` the categories do
not decrease in the collation of `localeCompare`, provided it is a consistent
comparator, a missing category counting as the empty string, so that items
with an empty or missing category stand first wherever the collation puts the
empty string strictly before every other string. -/
theorem onSortChange_sorted (h : Host) (s : State) :
    (∀ value, (onSortChange h value s).filteredItems.Perm s.filteredItems) ∧
    ((∀ a ∈ s.filteredItems, parseInt a.reading_time ≠ none) →
      SortedByReadingTime (onSortChange h "reading_time" s).filteredItems) ∧
    ((∀ a ∈ s.filteredItems, h.dateValue a.published_date ≠ none) →
      SortedByDateDescending h (onSortChange h "date" s).filteredItems) ∧
    (ConsistentCollation h →
      SortedByCategory h (onSortChange h "category" s).filteredItems ∧
      ((∀ x, x ≠ "" → 0 < h.localeCompare x "") →
        EmptyCategoryFirst (onSortChange h "category" s).filteredItems)) := by
  refine ⟨fun value => onSortChange_perm h value s, ?_, ?_, ?_⟩
  · intro hkey
    rw [onSortChange_reading_time]
    exact jsSort_by_key (fun a => parseInt a.reading_time) s.filteredItems hkey
  · intro hkey
    rw [onSortChange_date]
    exact jsSort_by_key_descending (fun a => h.dateValue a.published_date) s.filteredItems hkey
  · intro hc
    have hsorted : SortedByCategory h (onSortChange h "category" s).filteredItems := by
      rw [onSortChange_category]
      exact jsSort_by_collation h hc (fun a => a.category.getD "") s.filteredItems
    refine ⟨hsorted, fun hempty => ?_⟩
    refine List.Pairwise.imp ?_ hsorted
    intro a b hab hb
    by_contra ha
    have hpos := hempty _ ha
    rw [hb] at hab
    omega

/-- Witness of C4: the three sample records, all with readable reading times
and dates, under the collation of `sampleHost`. -/
theorem onSortChange_sorted_witness :
    (∀ a ∈ (controllerWith sampleItems).filteredItems, parseInt a.reading_time ≠ none) ∧
    (∀ a ∈ (controllerWith sampleItems).filteredItems,
      sampleHost.dateValue a.published_date ≠ none) ∧
    ConsistentCollation sampleHost ∧
    SortedByReadingTime
      (onSortChange sampleHost "reading_time" (controllerWith sampleItems)).filteredItems ∧
    SortedByDateDescending sampleHost
      (onSortChange sampleHost "date" (controllerWith sampleItems)).filteredItems ∧
    SortedByCategory sampleHost
      (onSortChange sampleHost "category" (controllerWith sampleItems)).filteredItems ∧
    EmptyCategoryFirst
      (onSortChange sampleHost "category" (controllerWith sampleItems)).filteredItems ∧
    (onSortChange sampleHost "reading_time" (controllerWith sampleItems)).filteredItems.map
      (fun a => a.title) = ["Untitled", "Intro to CSS", "Node streams"] ∧
    (onSortChange sampleHost "date" (controllerWith sampleItems)).filteredItems.map
      (fun a => a.title) = ["Intro to CSS", "Untitled", "Node streams"] ∧
    (onSortChange sampleHost "category" (controllerWith sampleItems)).filteredItems.map
      (fun a => a.title) = ["Untitled", "Node streams", "Intro to CSS"] :=
  have hw := onSortChange_sorted sampleHost (controllerWith sampleItems)
  ⟨by decide, by decide, sampleHost_consistent, hw.2.1 (by decide), hw.2.2.1 (by decide),
    (hw.2.2.2 sampleHost_consistent).1,
    (hw.2.2.2 sampleHost_consistent).2 sampleHost_empty_least, by decide, by decide, by decide⟩

/-- A list with two different items, one of whose reading times reads `NaN`,
is in no order non-decreasing in the reading times. -/
theorem not_sorted_of_nan (ys : List BlogItem) (x b : BlogItem) (hx : x ∈ ys) (hb : b ∈ ys)
    (hne : x ≠ b) (hnan : parseInt b.reading_time = none) : ¬ SortedByReadingTime ys := by
  intro hs
  have hsym : ys.Pairwise (fun a c =>
      JSNum.le (parseInt a.reading_time) (parseInt c.reading_time) = true ∨
      JSNum.le (parseInt c.reading_time) (parseInt a.reading_time) = true) :=
    List.Pairwise.imp (fun hac => Or.inl hac) hs
  have hpair := hsym.forall (fun _ _ hac => hac.symm) hx hb hne
  rw [hnan] at hpair
  cases hk : parseInt x.reading_time <;> simp [hk, JSNum.le] at hpair

/-- Counterexample to C4 as stated: of three items whose reading times read
5, `NaN` and 3 the comparator returns `NaN` for both neighbouring pairs, the
sort moves nothing, and 5 stays before 3; no other order of the three would
be non-decreasing either.  Likewise for their dates 1, invalid and 3, where 1
stays before 3 in the descending sort. -/
theorem onSortChange_reading_time_unsorted :
    (onSortChange sampleHost "reading_time" (controllerWith unreadableItems)).filteredItems
      = unreadableItems ∧
    unreadableItems.map (fun a => parseInt a.reading_time) = [some 5, none, some 3] ∧
    ¬ SortedByReadingTime
      (onSortChange sampleHost "reading_time" (controllerWith unreadableItems)).filteredItems ∧
    (∀ ys : List BlogItem, ys.Perm unreadableItems → ¬ SortedByReadingTime ys) ∧
    (onSortChange sampleHost "date" (controllerWith unreadableItems)).filteredItems
      = unreadableItems ∧
    unreadableItems.map (fun a => sampleHost.dateValue a.published_date)
      = [some 1, none, some 3] ∧
    ¬ SortedByDateDescending sampleHost
      (onSortChange sampleHost "date" (controllerWith unreadableItems)).filteredItems := by
  refine ⟨by decide, by decide, ?_, ?_, by decide, by decide, ?_⟩
  · unfold SortedByReadingTime
    decide
  · intro ys hperm
    exact not_sorted_of_nan ys (sampleItem "a" none none "1" "5")
      (sampleItem "b" none none "someday" "abc")
      (hperm.mem_iff.2 (by decide)) (hperm.mem_iff.2 (by decide)) (by decide) (by decide)
  · unfold SortedByDateDescending
    decide

/-! ## Filtering and searching -/

/-- C5: for a non-empty selected value `v`, `onFilterChange` sets the working
collection to the items of the full collection whose category is `v` or whose
tag list, empty when missing, contains `v`, in their order; for the empty
selection it sets it to the full collection; the full collection is left as
it was. -/
theorem onFilterChange_spec (h : Host) (s : State) :
    (∀ v, v ≠ "" →
      (onFilterChange h v s).filteredItems =
        s.items.filter (fun item => decide (item.category = some v ∨ v ∈ item.tags.getD []))) ∧
    (onFilterChange h "" s).filteredItems = s.items ∧
    (∀ v, (onFilterChange h v s).items = s.items) := by
  refine ⟨?_, ?_, ?_⟩
  · intro v hv
    simp only [onFilterChange, render, hv, ne_eq, not_false_eq_true, if_true]
    congr 1
    funext item
    simp [matchesFilter]
  · simp [onFilterChange, render]
  · intro v
    simp [onFilterChange, render]

/-- Witness of C5: the value `Frontend` selects the first sample record by
its category and the third by its tags. -/
theorem onFilterChange_spec_witness :
    "Frontend" ≠ "" ∧
    (onFilterChange sampleHost "Frontend" (controllerWith sampleItems)).filteredItems.map
      (fun a => a.title) = ["Intro to CSS", "Untitled"] ∧
    (onFilterChange sampleHost "Frontend" (controllerWith sampleItems)).filteredItems =
      (controllerWith sampleItems).items.filter
        (fun item => decide (item.category = some "Frontend" ∨ "Frontend" ∈ item.tags.getD [])) :=
  ⟨by decide, by decide,
    (onFilterChange_spec sampleHost (controllerWith sampleItems)).1 "Frontend" (by decide)⟩

/-- C6: `onSearchInput` sets the working collection to the items of the full
collection whose lower-cased title contains the lower-cased query, in their
order, and leaves the full collection as it was; the empty query gives the
full collection; a query that no title contains gives the empty collection,
for which `render` writes the placeholder and no article. -/
theorem onSearchInput_spec (h : Host) (s : State) :
    (∀ q, (onSearchInput h q s).filteredItems =
        s.items.filter (fun item =>
          decide ((h.toLowerCase q).data <:+: (h.toLowerCase item.title).data)) ∧
      (onSearchInput h q s).items = s.items) ∧
    (h.toLowerCase "" = "" → (onSearchInput h "" s).filteredItems = s.items) ∧
    (∀ q, (∀ item ∈ s.items, ¬ (h.toLowerCase q).data <:+: (h.toLowerCase item.title).data) →
      (onSearchInput h q s).filteredItems = [] ∧
      articles h (onSearchInput h q s) = [] ∧
      (onSearchInput h q s).listContainer = "<p class=\"no-results text-gray-600\">No blogs found</p>")
    := by
  have hfilter : ∀ q, (onSearchInput h q s).filteredItems =
      s.items.filter (fun item =>
        decide ((h.toLowerCase q).data <:+: (h.toLowerCase item.title).data)) := by
    intro q
    simp [onSearchInput, render, includes]
  refine ⟨fun q => ⟨hfilter q, by simp [onSearchInput, render]⟩, ?_, ?_⟩
  · intro hempty
    rw [hfilter, hempty]
    simp
  · intro q hnone
    have hnil : (onSearchInput h q s).filteredItems = [] := by
      rw [hfilter, List.filter_eq_nil_iff]
      intro item hitem
      simpa using hnone item hitem
    have hfi : s.items.filter (fun item => includes (h.toLowerCase item.title) (h.toLowerCase q))
        = [] := by
      have := hnil
      simpa [onSearchInput, render] using this
    refine ⟨hnil, ?_, ?_⟩
    · simp [articles, slice, hnil]
    · simp [onSearchInput, render, slice, hfi, noResults]

/-- Witness of C6: lower-casing is that of ASCII; `CSS` finds the one title
that contains `css`, and `zzz` finds none. -/
theorem onSearchInput_spec_witness :
    sampleHost.toLowerCase "" = "" ∧
    (onSearchInput sampleHost "" (controllerViewing sampleItems [])).filteredItems = sampleItems ∧
    (onSearchInput sampleHost "CSS" (controllerWith sampleItems)).filteredItems.map
      (fun a => a.title) = ["Intro to CSS"] ∧
    (∀ item ∈ (controllerWith sampleItems).items,
      ¬ (sampleHost.toLowerCase "zzz").data <:+: (sampleHost.toLowerCase item.title).data) ∧
    (onSearchInput sampleHost "zzz" (controllerWith sampleItems)).listContainer =
      "<p class=\"no-results text-gray-600\">No blogs found</p>" :=
  have hw := onSearchInput_spec sampleHost (controllerWith sampleItems)
  ⟨by decide,
    (onSearchInput_spec sampleHost (controllerViewing sampleItems [])).2.1 (by decide),
    by decide, by decide, (hw.2.2 "zzz" (by decide)).2.2⟩

/-! ## What each view operation starts from -/

/-- C7, as amended: `onFilterChange` and `onSearchInput` compute the working
collection from the full collection alone, so two states with the same full
collection get the same working collection from the same argument.
`onSortChange` does not: it reorders the working collection it finds, so its
result is a permutation of that collection and is the same for two states
with the same working collection.  None of the three changes the full
collection. -/
theorem view_operations_base (h : Host) (s1 s2 : State) :
    (s1.items = s2.items →
      (∀ v, (onFilterChange h v s1).filteredItems = (onFilterChange h v s2).filteredItems) ∧
      (∀ q, (onSearchInput h q s1).filteredItems = (onSearchInput h q s2).filteredItems)) ∧
    (s1.filteredItems = s2.filteredItems →
      ∀ value, (onSortChange h value s1).filteredItems = (onSortChange h value s2).filteredItems) ∧
    (∀ value, (onSortChange h value s1).filteredItems.Perm s1.filteredItems) ∧
    (∀ x, (onSortChange h x s1).items = s1.items ∧ (onFilterChange h x s1).items = s1.items ∧
      (onSearchInput h x s1).items = s1.items) := by
  refine ⟨?_, ?_, fun value => onSortChange_perm h value s1, ?_⟩
  · intro hitems
    constructor
    · intro v
      simp [onFilterChange, render, hitems]
    · intro q
      simp [onSearchInput, render, hitems]
  · intro hworking value
    simp [onSortChange, render, hworking]
  · intro x
    simp [onSortChange, onFilterChange, onSearchInput, render]

/-- Witness of C7: the full collection is the three sample records in both
states; one state shows all of them and the other none. -/
theorem view_operations_base_witness :
    (controllerWith sampleItems).items = (controllerViewing sampleItems []).items ∧
    (controllerWith sampleItems).filteredItems ≠ (controllerViewing sampleItems []).filteredItems ∧
    (onFilterChange sampleHost "Frontend" (controllerWith sampleItems)).filteredItems =
      (onFilterChange sampleHost "Frontend" (controllerViewing sampleItems [])).filteredItems ∧
    (onSearchInput sampleHost "node" (controllerWith sampleItems)).filteredItems =
      (onSearchInput sampleHost "node" (controllerViewing sampleItems [])).filteredItems ∧
    (controllerViewing [] sampleItems).filteredItems = (controllerWith sampleItems).filteredItems ∧
    (onSortChange sampleHost "date" (controllerViewing [] sampleItems)).filteredItems =
      (onSortChange sampleHost "date" (controllerWith sampleItems)).filteredItems :=
  have hw := view_operations_base sampleHost (controllerWith sampleItems)
    (controllerViewing sampleItems [])
  have hv := view_operations_base sampleHost (controllerViewing [] sampleItems)
    (controllerWith sampleItems)
  ⟨rfl, by decide, (hw.1 rfl).1 "Frontend", (hw.1 rfl).2 "node", rfl, hv.2.1 rfl "date"⟩

/-- Counterexample to C7 as stated: two states with the same full collection,
one showing its first record only and the other its second only, keep their
different working collections under the same `onSortChange`. -/
theorem onSortChange_keeps_working :
    (controllerViewing sampleItems (sampleItems.take 1)).items =
      (controllerViewing sampleItems (sampleItems.drop 2)).items ∧
    (onSortChange sampleHost "date"
      (controllerViewing sampleItems (sampleItems.take 1))).filteredItems.map (fun a => a.title)
        = ["Intro to CSS"] ∧
    (onSortChange sampleHost "date"
      (controllerViewing sampleItems (sampleItems.drop 2))).filteredItems.map (fun a => a.title)
        = ["Untitled"] ∧
    (onSortChange sampleHost "date"
      (controllerViewing sampleItems (sampleItems.take 1))).filteredItems ≠
    (onSortChange sampleHost "date"
      (controllerViewing sampleItems (sampleItems.drop 2))).filteredItems := by
  refine ⟨rfl, by decide, by decide, by decide⟩

/-! ## Rendering -/

theorem init_of_cache_hit (h : Host) (s : State) (A : List BlogItem)
    (hhit : cachedArray h s = some A) :
    init h s = hideLoading (render h { showLoading s with items := A, filteredItems := A }) := by
  have hf : fetchData h (showLoading s) =
      { state := { showLoading s with items := A, filteredItems := A }, error := none } := by
    simp [fetchData, cachedArray_showLoading, hhit]
  simp [init, hf]

/-! ## Counting the articles of the markup -/

theorem countFrom_eq (pattern : List Char) :
    ∀ (text : List Char) (found : Nat),
      countFrom pattern found text = found + countFrom pattern 0 text
  | [], found => rfl
  | c :: rest, found => by
    simp only [countFrom]
    rw [countFrom_eq pattern rest (if pattern.isPrefixOf (c :: rest) then found + 1 else found),
      countFrom_eq pattern rest (if pattern.isPrefixOf (c :: rest) then 0 + 1 else 0)]
    split_ifs <;> omega

theorem countOccurrences_nil (pattern : List Char) : countOccurrences pattern [] = 0 := rfl

theorem countOccurrences_cons (pattern : List Char) (c : Char) (rest : List Char) :
    countOccurrences pattern (c :: rest) =
      (if pattern.isPrefixOf (c :: rest) then 1 else 0) + countOccurrences pattern rest := by
  show countFrom pattern (if pattern.isPrefixOf (c :: rest) then 0 + 1 else 0) rest = _
  rw [countFrom_eq]
  rfl

theorem endsInside_eq_false {pattern text : List Char} (h : endsInside pattern text = false)
    (k : Nat) (hk0 : 0 < k) (hk : k < pattern.length) : ¬ pattern.take k <:+ text := by
  simp only [endsInside, List.any_eq_false, List.mem_range, Bool.and_eq_true, decide_eq_true_eq,
    List.isSuffixOf_iff_suffix, not_and] at h
  exact h k hk hk0

theorem endsInside_tail {pattern : List Char} {c : Char} {text : List Char}
    (h : endsInside pattern (c :: text) = false) : endsInside pattern text = false := by
  simp only [endsInside, List.any_eq_false, List.mem_range, Bool.and_eq_true, decide_eq_true_eq,
    List.isSuffixOf_iff_suffix, not_and] at h ⊢
  intro k hk hk0 hsuf
  exact h k hk hk0 (hsuf.trans (List.suffix_cons c text))

/-- Whether `pattern` starts a text that does not end inside an occurrence of
it is not changed by what follows the text. -/
theorem isPrefixOf_append (pattern text rest : List Char)
    (hne : text ≠ []) (h : endsInside pattern text = false) :
    pattern.isPrefixOf (text ++ rest) = pattern.isPrefixOf text := by
  rw [Bool.eq_iff_iff, List.isPrefixOf_iff_prefix, List.isPrefixOf_iff_prefix]
  constructor
  · intro hp
    rcases Nat.lt_or_ge text.length pattern.length with hlt | hge
    · exfalso
      have htp : text <+: pattern :=
        List.prefix_of_prefix_length_le (List.prefix_append text rest) hp (Nat.le_of_lt hlt)
      have htake : pattern.take text.length = text := (List.prefix_iff_eq_take.1 htp).symm
      have hpos : 0 < text.length := List.length_pos.2 hne
      exact endsInside_eq_false h text.length hpos hlt (by rw [htake])
    · exact List.prefix_of_prefix_length_le hp (List.prefix_append text rest) hge
  · intro hp
    exact hp.trans (List.prefix_append text rest)

/-- The occurrences in two texts, one after the other, are those in the
first and those in the second, when the first does not end inside one. -/
theorem countOccurrences_append (pattern : List Char) :
    ∀ (text rest : List Char), endsInside pattern text = false →
      countOccurrences pattern (text ++ rest) =
        countOccurrences pattern text + countOccurrences pattern rest
  | [], rest, _ => by simp [countOccurrences_nil]
  | c :: text, rest, h => by
    have hrec := countOccurrences_append pattern text rest (endsInside_tail h)
    have hpre := isPrefixOf_append pattern (c :: text) rest (by simp) h
    simp only [List.cons_append] at hpre
    rw [List.cons_append, countOccurrences_cons, countOccurrences_cons, hpre, hrec]
    omega

/-- The occurrences in a run of texts none of which ends inside one. -/
theorem countOccurrences_flatten (pattern : List Char) :
    ∀ (pieces : List (List Char)), (∀ p ∈ pieces, endsInside pattern p = false) →
      ∀ rest, countOccurrences pattern (pieces.flatten ++ rest) =
        (pieces.map (countOccurrences pattern)).sum + countOccurrences pattern rest
  | [], _, rest => by simp
  | p :: pieces, h, rest => by
    have hrec := countOccurrences_flatten pattern pieces
      (fun q hq => h q (List.mem_cons_of_mem _ hq)) rest
    simp only [List.flatten_cons, List.append_assoc, List.map_cons, List.sum_cons]
    rw [countOccurrences_append pattern p _ (h p (List.mem_cons_self _ _)), hrec]
    omega

/-- In plain text no start tag stands. -/
theorem countOccurrences_plain (s : String) (hs : isPlainText s = true) :
    countOccurrences articleTag.data s.data = 0 := by
  have hmem : '<' ∉ s.data := by simpa [isPlainText] using hs
  generalize s.data = text at hmem
  induction text with
  | nil => rfl
  | cons c text ih =>
    have hc : c ≠ '<' := fun hc => hmem (by simp [hc])
    have hpre : articleTag.data.isPrefixOf (c :: text) = false := by
      show ('<' :: _ : List Char).isPrefixOf (c :: text) = false
      simp [List.isPrefixOf, Ne.symm hc]
    rw [countOccurrences_cons, hpre]
    simpa using ih (fun hm => hmem (List.mem_cons_of_mem _ hm))

/-- Plain text does not end inside a start tag. -/
theorem endsInside_plain (s : String) (hs : isPlainText s = true) :
    endsInside articleTag.data s.data = false := by
  have hmem : '<' ∉ s.data := by simpa [isPlainText] using hs
  simp only [endsInside, List.any_eq_false, List.mem_range, Bool.and_eq_true, decide_eq_true_eq,
    List.isSuffixOf_iff_suffix, not_and]
  intro k _ hk0 hsuf
  apply hmem
  apply hsuf.subset
  obtain ⟨j, rfl⟩ : ∃ j, k = j + 1 := ⟨k - 1, by omega⟩
  show '<' ∈ List.take (j + 1) ('<' :: _)
  simp

/-- A text with no start tag in it, which does not end inside one, adds
nothing to the count. -/
theorem countOccurrences_skip (text rest : List Char)
    (h1 : endsInside articleTag.data text = false)
    (h2 : countOccurrences articleTag.data text = 0) :
    countOccurrences articleTag.data (text ++ rest) = countOccurrences articleTag.data rest := by
  rw [countOccurrences_append _ _ _ h1, h2, Nat.zero_add]

theorem join_data (parts : List String) :
    (String.join parts).data = (parts.map String.data).flatten := by
  rw [String.join_eq]

/-- The tags of a record, plain texts in `span` elements, open no article. -/
theorem countOccurrences_tags :
    ∀ (tags : List String), (∀ t ∈ tags, isPlainText t = true) → ∀ rest,
      countOccurrences articleTag.data
        ((String.join (tags.map (fun t =>
          "<span class=\"tag bg-blue-100 text-blue-700 px-2 py-1 text-xs rounded\">" ++ t ++
            "</span>"))).data ++ rest) = countOccurrences articleTag.data rest
  | [], _, rest => by simp [String.join]
  | t :: tags, hp, rest => by
    have hrec := countOccurrences_tags tags (fun u hu => hp u (List.mem_cons_of_mem _ hu)) rest
    have ht := hp t (List.mem_cons_self _ _)
    rw [join_data] at hrec ⊢
    simp only [List.map_cons, List.flatten_cons, String.data_append, List.append_assoc]
    refine (countOccurrences_skip _ _ (by decide) (by decide)).trans ?_
    refine (countOccurrences_skip _ _ (endsInside_plain _ ht) (countOccurrences_plain _ ht)).trans ?_
    refine (countOccurrences_skip _ _ (by decide) (by decide)).trans ?_
    exact hrec

/-- The markup of a record whose fields are plain opens one article. -/
theorem countOccurrences_article (h : Host) (item : BlogItem)
    (hplain : isPlainItem h item = true) (rest : List Char) :
    countOccurrences articleTag.data ((article h item).data ++ rest) =
      1 + countOccurrences articleTag.data rest := by
  simp only [isPlainItem, Bool.and_eq_true, List.all_eq_true] at hplain
  obtain ⟨⟨⟨⟨⟨⟨himage, htitle⟩, hauthor⟩, hdate⟩, htime⟩, hcontent⟩, htags⟩ := hplain
  simp only [article, String.data_append, List.append_assoc]
  refine (countOccurrences_append _ _ _ (by decide)).trans ?_
  refine (congrArg₂ (fun a b => a + b) (by decide) ?_)
  repeat (first
    | refine (countOccurrences_skip _ _ (by decide) (by decide)).trans ?_
    | refine (countOccurrences_skip _ _ (endsInside_plain _ himage)
        (countOccurrences_plain _ himage)).trans ?_
    | refine (countOccurrences_skip _ _ (endsInside_plain _ htitle)
        (countOccurrences_plain _ htitle)).trans ?_
    | refine (countOccurrences_skip _ _ (endsInside_plain _ hauthor)
        (countOccurrences_plain _ hauthor)).trans ?_
    | refine (countOccurrences_skip _ _ (endsInside_plain _ hdate)
        (countOccurrences_plain _ hdate)).trans ?_
    | refine (countOccurrences_skip _ _ (endsInside_plain _ htime)
        (countOccurrences_plain _ htime)).trans ?_
    | refine (countOccurrences_skip _ _ (endsInside_plain _ hcontent)
        (countOccurrences_plain _ hcontent)).trans ?_
    | refine (countOccurrences_tags _ htags _).trans ?_)
  rfl

/-- The markup of records with plain fields, one after the other, opens one
article for each. -/
theorem countOccurrences_articles (h : Host) :
    ∀ (items : List BlogItem), (∀ item ∈ items, isPlainItem h item = true) → ∀ rest,
      countOccurrences articleTag.data
        (((items.map (article h)).map String.data).flatten ++ rest) =
          items.length + countOccurrences articleTag.data rest
  | [], _, rest => by simp
  | item :: items, hp, rest => by
    have hrec := countOccurrences_articles h items
      (fun x hx => hp x (List.mem_cons_of_mem _ hx)) rest
    simp only [List.map_cons, List.flatten_cons, List.append_assoc, List.length_cons]
    rw [countOccurrences_article h item (hp item (List.mem_cons_self _ _)), hrec]
    omega

theorem countArticles_join (h : Host) (items : List BlogItem)
    (hp : ∀ item ∈ items, isPlainItem h item = true) :
    countArticles (String.join (items.map (article h))) = items.length := by
  have hc := countOccurrences_articles h items hp []
  simp only [List.append_nil, countOccurrences_nil, Nat.add_zero] at hc
  simp only [countArticles, join_data, hc]

/-- The markup of a record holds its title. -/
theorem title_infix_article (h : Host) (item : BlogItem) :
    item.title.data <:+: (article h item).data := by
  simp only [article, String.data_append, List.append_assoc]
  repeat (first
    | exact (List.prefix_append _ _).isInfix
    | refine List.IsInfix.trans ?_ (List.suffix_append _ _).isInfix)

theorem render_listContainer (h : Host) (s : State) :
    (render h s).listContainer =
      if s.filteredItems.take (s.page * s.perPage) = [] then noResults
      else String.join ((s.filteredItems.take (s.page * s.perPage)).map (article h)) := by
  by_cases hnil : s.filteredItems.take (s.page * s.perPage) = []
  · simp [render, slice, hnil]
  · have hlen : (s.filteredItems.take (s.page * s.perPage)).length ≠ 0 :=
      fun h0 => hnil (List.length_eq_zero.1 h0)
    simp only [render, slice, articles, hlen, if_false, hnil]

/-- The number of articles in what `render` writes, for plain records. -/
theorem countArticles_render (h : Host) (s : State)
    (hp : ∀ item ∈ s.filteredItems.take (s.page * s.perPage), isPlainItem h item = true) :
    countArticles (render h s).listContainer = min (s.page * s.perPage) s.filteredItems.length := by
  rw [render_listContainer]
  by_cases hnil : s.filteredItems.take (s.page * s.perPage) = []
  · have hlen := congrArg List.length hnil
    simp only [List.length_take, List.length_nil] at hlen
    rw [if_pos hnil, hlen]
    decide
  · rw [if_neg hnil, countArticles_join h _ hp, List.length_take]

/-- C8, as amended: `render` writes the markup of the first `page * perPage`
items of the working collection, one after the other in their order, and the
placeholder when there is none.  When the displayed fields of these items
hold no `<`, that markup opens one article element for each of them, which
are `min (page * perPage) n` articles for a collection of `n` items; the
markup of such an item opens one article, and the markup of every item holds
its title.  The constructor sets `page` to 1 and `perPage` to 10, and each
view operation sets `page` to 1 and keeps `perPage`.  So a controller started
on a cache of 12 such items writes 10 articles, those of the first 10 items,
without a call of `fetch`. -/
theorem render_page (h : Host) (s : State) :
    ((render h s).listContainer =
      if s.filteredItems.take (s.page * s.perPage) = [] then
        "<p class=\"no-results text-gray-600\">No blogs found</p>"
      else String.join ((s.filteredItems.take (s.page * s.perPage)).map (article h))) ∧
    ((∀ item ∈ s.filteredItems.take (s.page * s.perPage), isPlainItem h item = true) →
      countArticles (render h s).listContainer =
        min (s.page * s.perPage) s.filteredItems.length) ∧
    (∀ item, item.title.data <:+: (article h item).data ∧
      (isPlainItem h item = true → countArticles (article h item) = 1)) ∧
    (∀ html loading error storage calls,
      (constructor html loading error storage calls).page = 1 ∧
      (constructor html loading error storage calls).perPage = 10) ∧
    (∀ x, ((onSortChange h x s).page = 1 ∧ (onSortChange h x s).perPage = s.perPage) ∧
      ((onFilterChange h x s).page = 1 ∧ (onFilterChange h x s).perPage = s.perPage) ∧
      ((onSearchInput h x s).page = 1 ∧ (onSearchInput h x s).perPage = s.perPage)) ∧
    (∀ html loading error storage calls cached A,
      storage.getItem "blogs_cache_v1" = some cached → cached ≠ "" →
      h.jsonParse cached = some (.array A) → A.length = 12 →
      (∀ item ∈ A, isPlainItem h item = true) →
        countArticles (init h (constructor html loading error storage calls)).listContainer
          = 10 ∧
        (init h (constructor html loading error storage calls)).listContainer =
          String.join ((A.take 10).map (article h)) ∧
        (init h (constructor html loading error storage calls)).fetchCalls = calls) := by
  refine ⟨render_listContainer h s, countArticles_render h s, ?_,
    fun _ _ _ _ _ => ⟨rfl, rfl⟩, ?_, ?_⟩
  · intro item
    refine ⟨title_infix_article h item, fun hp => ?_⟩
    have hc := countOccurrences_article h item hp []
    rw [List.append_nil] at hc
    exact hc
  · intro x
    simp [onSortChange, onFilterChange, onSearchInput, render]
  · intro html loading error storage calls cached A hget hne hparse hlen hplain
    have hhit : cachedArray h (constructor html loading error storage calls) = some A :=
      cachedArray_eq_some (by simpa [constructor] using hget) hne hparse
    have htake : (A.take 10).length = 10 := by simp [hlen]
    have hnil : A.take 10 ≠ [] := fun h0 => by simp [h0] at htake
    have hlist : (init h (constructor html loading error storage calls)).listContainer =
        String.join ((A.take 10).map (article h)) := by
      rw [init_of_cache_hit h _ A hhit]
      show (render h _).listContainer = _
      rw [render_listContainer]
      simp only [showLoading, constructor, Nat.one_mul, hnil, if_false]
    refine ⟨?_, hlist, ?_⟩
    · rw [hlist, countArticles_join h _ (fun item hi => hplain item (List.mem_of_mem_take hi)),
        htake]
    · rw [init_of_cache_hit h _ A hhit]
      simp [hideLoading, render, showLoading, constructor]

/-- Witness of C8: the store holds `[twelve]`, which the codec of `twelveHost`
parses to twelve records with plain fields; the controller writes ten
articles, those of the records `01` to `10`. -/
theorem render_page_witness :
    (singleEntry "blogs_cache_v1" "[twelve]").getItem "blogs_cache_v1" = some "[twelve]" ∧
    twelveHost.jsonParse "[twelve]" = some (.array twelveItems) ∧
    twelveItems.length = 12 ∧
    (∀ item ∈ twelveItems, isPlainItem twelveHost item = true) ∧
    countArticles
      (init twelveHost (freshController (singleEntry "blogs_cache_v1" "[twelve]"))).listContainer
        = 10 ∧
    (slice (init twelveHost (freshController (singleEntry "blogs_cache_v1" "[twelve]")))).map
      (fun a => a.title) = ["01", "02", "03", "04", "05", "06", "07", "08", "09", "10"] :=
  have hw := (render_page twelveHost (freshController (fun _ => none))).2.2.2.2.2
    "" (some { classList := ["loading-indicator"], textContent := "Loading" })
    (some { classList := ["error-container", "hidden"], textContent := "" })
    (singleEntry "blogs_cache_v1" "[twelve]") 0 "[twelve]" twelveItems
    (by decide) (by decide) (by decide) (by decide) (by decide)
  ⟨by decide, by decide, by decide, by decide, hw.1, by decide⟩

set_option maxRecDepth 1000000 in
/-- Counterexample to C8 as stated: a working collection of one item whose
title is the markup `<article>Nested</article>`; what `render` writes opens
two article elements for the one item. -/
theorem render_page_markup :
    (controllerWith [markupItem]).filteredItems.length = 1 ∧
    (controllerWith [markupItem]).page * (controllerWith [markupItem]).perPage = 10 ∧
    markupItem.title = "<article>Nested</article>" ∧
    countArticles (render sampleHost (controllerWith [markupItem])).listContainer = 2 := by
  refine ⟨rfl, rfl, rfl, by decide⟩

end BlogList

namespace DragDrop

theorem handleDrop_children_some (s : State) (z : Zone) (x : Item)
    (hx : s.dragState.currentItem = some x) :
    (handleDrop z s).children = appendChild s.children z x := by
  simp [handleDrop, handleDragLeave, hx]

theorem handleDrop_children_none (s : State) (z : Zone)
    (hx : s.dragState.currentItem = none) :
    (handleDrop z s).children = s.children := by
  simp [handleDrop, handleDragLeave, hx]

/-- C9: a drop on a zone makes the recorded current item the last child of
the zone, taking it out of the place it had, and keeps the other children in
their order; with no current item recorded it changes the children of no
zone.  So for two different items `a` and `b`, after drag-start `a`, drop,
drag-end `a`, drag-start `b`, drop, drag-end `b` the zone ends with `a` and
then `b`, and no current item is recorded. -/
theorem handleDrop_appends (s : State) (z : Zone) :
    (∀ x, s.dragState.currentItem = some x →
      (handleDrop z s).children z = (s.children z).filter (fun y => y ≠ x) ++ [x] ∧
      ∀ z', z' ≠ z → (handleDrop z s).children z' = (s.children z').filter (fun y => y ≠ x)) ∧
    (s.dragState.currentItem = none → (handleDrop z s).children = s.children) ∧
    (∀ a b, a ≠ b →
      (handleDragEnd b (handleDrop z (handleDragStart b
        (handleDragEnd a (handleDrop z (handleDragStart a s)))))).children z =
          (s.children z).filter (fun y => y ≠ a ∧ y ≠ b) ++ [a, b] ∧
      (handleDragEnd b (handleDrop z (handleDragStart b
        (handleDragEnd a (handleDrop z (handleDragStart a s)))))).dragState.currentItem = none)
    := by
  refine ⟨?_, handleDrop_children_none s z, ?_⟩
  · intro x hx
    rw [handleDrop_children_some s z x hx]
    refine ⟨by simp [appendChild], ?_⟩
    intro z' hz'
    simp [appendChild, hz']
  · intro a b hab
    refine ⟨?_, rfl⟩
    have h1 : (handleDrop z (handleDragStart a s)).children = appendChild s.children z a :=
      handleDrop_children_some _ z a rfl
    have h2 : (handleDrop z (handleDragStart b
        (handleDragEnd a (handleDrop z (handleDragStart a s))))).children =
        appendChild (appendChild s.children z a) z b := by
      rw [handleDrop_children_some _ z b rfl]
      show appendChild (handleDrop z (handleDragStart a s)).children z b = _
      rw [h1]
    show (handleDrop z (handleDragStart b
        (handleDragEnd a (handleDrop z (handleDragStart a s))))).children z = _
    rw [h2]
    simp only [appendChild, if_true, List.filter_append, List.filter_filter,
      List.append_assoc]
    have hfa : List.filter (fun x => decide (x ≠ b)) [a] = [a] := by
      simp [List.filter, hab]
    rw [hfa]
    have hfun : (fun y : Item => decide (y ≠ b) && decide (y ≠ a)) =
        (fun y : Item => decide (y ≠ a ∧ y ≠ b)) := by
      funext y
      by_cases h1 : y = a <;> by_cases h2 : y = b <;> simp [h1, h2]
    rw [hfun]
    rfl

/-- Witness of C9: on `sampleBoard`, item 4 of zone 1 and then item 2 of zone
0 are dropped on zone 0. -/
theorem handleDrop_appends_witness :
    (handleDragStart 4 sampleBoard).dragState.currentItem = some 4 ∧
    (handleDrop 0 (handleDragStart 4 sampleBoard)).children 0 = [1, 2, 3, 4] ∧
    (handleDrop 0 (handleDragStart 4 sampleBoard)).children 1 = [] ∧
    (4 : Item) ≠ 2 ∧
    (handleDragEnd 2 (handleDrop 0 (handleDragStart 2
      (handleDragEnd 4 (handleDrop 0 (handleDragStart 4 sampleBoard)))))).children 0
        = [1, 3, 4, 2] :=
  have hw := handleDrop_appends sampleBoard 0
  have hv := (handleDrop_appends (handleDragStart 4 sampleBoard) 0).1 4 rfl
  ⟨rfl, hv.1, hv.2 1 (by decide), by decide, (hw.2.2 4 2 (by decide)).1⟩

end DragDrop

namespace Navigation

/-- With distinct links, the link at index `i` is found at index `i`. -/
theorem indexOf_focus (links : List Node) (i : Nat) (a : Node) (hnodup : links.Nodup)
    (hfocus : links[i]? = some a) : indexOf links a = (i : Int) := by
  obtain ⟨hi, ha⟩ := List.getElem?_eq_some_iff.1 hfocus
  have hmem : a ∈ links := ha ▸ List.getElem_mem hi
  have hidx : links.indexOf a = i := by
    rw [← ha]
    exact List.indexOf_getElem hnodup i hi
  simp [indexOf, hmem, hidx]

/-- One call of `_focusOffset` from the link at index `i`, the sum
`i + offset + n` being the natural number `m`: the focus goes to index
`m % n`. -/
theorem focusOffset_step (s : State) (i : Nat) (offset : Int) (m : Nat) (el : Node)
    (hnodup : s.links.Nodup) (hfocus : s.links[i]? = some s.activeElement)
    (hm : (i : Int) + offset + (s.links.length : Int) = (m : Int))
    (hel : s.links[m % s.links.length]? = some el) :
    _focusOffset offset s = { s with activeElement := el } := by
  have hidx := indexOf_focus s.links i s.activeElement hnodup hfocus
  have hne : ((i : Int) = -1) = False := by
    apply eq_false
    omega
  have hmod : Int.tmod (m : Int) (s.links.length : Int) = ((m % s.links.length : Nat) : Int) := by
    rw [Int.tmod_eq_emod (Int.ofNat_nonneg _) (Int.ofNat_nonneg _)]
    exact (Int.natCast_mod m s.links.length).symm
  have hnext : linkAt s.links ((m % s.links.length : Nat) : Int) = some el := by
    have hnn : ¬ ((m % s.links.length : Nat) : Int) < 0 := by omega
    simp only [linkAt, hnn, if_false, Int.toNat_ofNat]
    exact hel
  simp only [_focusOffset, hidx, hne, if_false, hm, hmod, hnext]

theorem onLinkKeydown_next (s : State) (key : String) (hkey : key ∈ ["ArrowRight", "ArrowDown"]) :
    _onLinkKeydown key s = _focusOffset 1 s := by
  simp [_onLinkKeydown, hkey]

theorem onLinkKeydown_prev (s : State) (key : String) (hkey : key ∈ ["ArrowLeft", "ArrowUp"]) :
    _onLinkKeydown key s = _focusOffset (-1) s := by
  have hnot : key ∉ ["ArrowRight", "ArrowDown"] := by
    simp only [List.mem_cons, List.mem_singleton, List.not_mem_nil, or_false] at hkey ⊢
    rcases hkey with rfl | rfl <;> decide
  simp [_onLinkKeydown, hkey, hnot]

/-- A next-key from index `i` puts the focus on index `(i + 1) % n`. -/
theorem focus_next (s : State) (i : Nat) (hnodup : s.links.Nodup)
    (hfocus : s.links[i]? = some s.activeElement) :
    ∃ el, s.links[(i + 1) % s.links.length]? = some el ∧
      _focusOffset 1 s = { s with activeElement := el } := by
  obtain ⟨hi, _⟩ := List.getElem?_eq_some_iff.1 hfocus
  have hlt : (i + 1) % s.links.length < s.links.length := Nat.mod_lt _ (by omega)
  refine ⟨s.links[(i + 1) % s.links.length], List.getElem?_eq_getElem hlt, ?_⟩
  apply focusOffset_step s i 1 (i + 1 + s.links.length) _ hnodup hfocus
  · push_cast; ring
  · rw [Nat.add_mod_right]
    exact List.getElem?_eq_getElem hlt

/-- A previous-key from index `i` puts the focus on index `(i + n - 1) % n`. -/
theorem focus_prev (s : State) (i : Nat) (hnodup : s.links.Nodup)
    (hfocus : s.links[i]? = some s.activeElement) :
    ∃ el, s.links[(i + s.links.length - 1) % s.links.length]? = some el ∧
      _focusOffset (-1) s = { s with activeElement := el } := by
  obtain ⟨hi, _⟩ := List.getElem?_eq_some_iff.1 hfocus
  have hlt : (i + s.links.length - 1) % s.links.length < s.links.length :=
    Nat.mod_lt _ (by omega)
  refine ⟨s.links[(i + s.links.length - 1) % s.links.length], List.getElem?_eq_getElem hlt, ?_⟩
  apply focusOffset_step s i (-1) (i + s.links.length - 1) _ hnodup hfocus
  · omega
  · exact List.getElem?_eq_getElem hlt

/-- The index a previous-key goes to is `(i - 1) mod n`. -/
theorem prev_index (i n : Nat) (hi : i < n) :
    (((i + n - 1) % n : Nat) : Int) = ((i : Int) - 1) % (n : Int) := by
  have h1 : ((i : Int) - 1) % (n : Int) = (((i + n - 1 : Nat) : Int)) % (n : Int) := by
    have : ((i + n - 1 : Nat) : Int) = (i : Int) - 1 + (n : Int) := by omega
    rw [this, Int.add_emod_self]
  rw [h1]
  exact Int.natCast_mod (i + n - 1) n

/-- The index a next-key goes to is `(i + 1) mod n`. -/
theorem next_index (i n : Nat) :
    (((i + 1) % n : Nat) : Int) = ((i : Int) + 1) % (n : Int) := by
  have : ((i : Int) + 1) = ((i + 1 : Nat) : Int) := by push_cast; rfl
  rw [this]
  exact Int.natCast_mod (i + 1) n

/-- After `k` next-keys from index `i` the focus is on index `(i + k) % n`. -/
theorem iterate_next (key : String) (hkey : key ∈ ["ArrowRight", "ArrowDown"]) :
    ∀ (k : Nat) (s : State) (i : Nat), s.links.Nodup → s.links[i]? = some s.activeElement →
      ∃ el, s.links[(i + k) % s.links.length]? = some el ∧
        (_onLinkKeydown key)^[k] s = { s with activeElement := el }
  | 0, s, i, _, hfocus => by
    obtain ⟨hi, _⟩ := List.getElem?_eq_some_iff.1 hfocus
    refine ⟨s.activeElement, ?_, rfl⟩
    rw [Nat.add_zero, Nat.mod_eq_of_lt hi]
    exact hfocus
  | k + 1, s, i, hnodup, hfocus => by
    obtain ⟨el, hel, hstep⟩ := focus_next s i hnodup hfocus
    have hrec := iterate_next key hkey k { s with activeElement := el }
      ((i + 1) % s.links.length) hnodup hel
    obtain ⟨el2, hel2, hiter⟩ := hrec
    refine ⟨el2, ?_, ?_⟩
    · have : (i + (k + 1)) % s.links.length = ((i + 1) % s.links.length + k) % s.links.length := by
        rw [Nat.mod_add_mod]
        congr 1
        omega
      rw [this]
      exact hel2
    · rw [Function.iterate_succ_apply, onLinkKeydown_next s key hkey, hstep, hiter]

/-- C10: with distinct links and the focus on the link at index `i`, a
next-key (`ArrowRight`, `ArrowDown`) moves the focus to the link at index
`(i + 1) mod n` and a previous-key (`ArrowLeft`, `ArrowUp`) to the link at
index `(i - 1) mod n`, both below `n`; a next-key followed by a previous-key,
and `n` next-keys in a row, leave the focus on the link at index `i`. -/
theorem onLinkKeydown_cycles (s : State) (i : Nat) (hnodup : s.links.Nodup)
    (hfocus : s.links[i]? = some s.activeElement) :
    (∀ key ∈ ["ArrowRight", "ArrowDown"], ∃ j : Nat,
      (j : Int) = ((i : Int) + 1) % (s.links.length : Int) ∧ j < s.links.length ∧
      (_onLinkKeydown key s).links = s.links ∧
      s.links[j]? = some (_onLinkKeydown key s).activeElement) ∧
    (∀ key ∈ ["ArrowLeft", "ArrowUp"], ∃ j : Nat,
      (j : Int) = ((i : Int) - 1) % (s.links.length : Int) ∧ j < s.links.length ∧
      (_onLinkKeydown key s).links = s.links ∧
      s.links[j]? = some (_onLinkKeydown key s).activeElement) ∧
    (∀ next ∈ ["ArrowRight", "ArrowDown"], ∀ prev ∈ ["ArrowLeft", "ArrowUp"],
      _onLinkKeydown prev (_onLinkKeydown next s) = s) ∧
    (∀ next ∈ ["ArrowRight", "ArrowDown"], (_onLinkKeydown next)^[s.links.length] s = s) := by
  obtain ⟨hi, hget⟩ := List.getElem?_eq_some_iff.1 hfocus
  have hpos : 0 < s.links.length := by omega
  refine ⟨?_, ?_, ?_, ?_⟩
  · intro key hkey
    obtain ⟨el, hel, hstep⟩ := focus_next s i hnodup hfocus
    refine ⟨(i + 1) % s.links.length, next_index i _, Nat.mod_lt _ hpos, ?_, ?_⟩
    · rw [onLinkKeydown_next s key hkey, hstep]
    · rw [onLinkKeydown_next s key hkey, hstep]
      exact hel
  · intro key hkey
    obtain ⟨el, hel, hstep⟩ := focus_prev s i hnodup hfocus
    refine ⟨(i + s.links.length - 1) % s.links.length, prev_index i _ hi, Nat.mod_lt _ hpos,
      ?_, ?_⟩
    · rw [onLinkKeydown_prev s key hkey, hstep]
    · rw [onLinkKeydown_prev s key hkey, hstep]
      exact hel
  · intro next hnext prev hprev
    obtain ⟨el, hel, hstep⟩ := focus_next s i hnodup hfocus
    rw [onLinkKeydown_next s next hnext, hstep, onLinkKeydown_prev _ prev hprev]
    obtain ⟨el2, hel2, hback⟩ := focus_prev { s with activeElement := el }
      ((i + 1) % s.links.length) hnodup hel
    rw [hback]
    have hidx : ((i + 1) % s.links.length + s.links.length - 1) % s.links.length = i := by
      rcases Nat.lt_or_ge (i + 1) s.links.length with hlt | hge
      · rw [Nat.mod_eq_of_lt hlt]
        have : i + 1 + s.links.length - 1 = i + s.links.length := by omega
        rw [this, Nat.add_mod_right, Nat.mod_eq_of_lt hi]
      · have hlast : i + 1 = s.links.length := by omega
        rw [hlast, Nat.mod_self, Nat.zero_add, Nat.mod_eq_of_lt (Nat.sub_lt hpos Nat.one_pos)]
        omega
    have hel3 : s.links[i]? = some el2 := by
      have := hel2
      simp only at this
      rw [hidx] at this
      exact this
    have hsame : el2 = s.activeElement := by
      rw [hfocus] at hel3
      exact (Option.some.inj hel3).symm
    rw [hsame]
  · intro next hnext
    obtain ⟨el, hel, hiter⟩ := iterate_next next hnext s.links.length s i hnodup hfocus
    rw [hiter]
    rw [Nat.add_mod_right, Nat.mod_eq_of_lt hi, hfocus] at hel
    rw [← Option.some.inj hel]

/-- Witness of C10: four links with the focus on the third. -/
theorem onLinkKeydown_cycles_witness :
    sampleNav.links.Nodup ∧ sampleNav.links[2]? = some sampleNav.activeElement ∧
    (_onLinkKeydown "ArrowRight" sampleNav).activeElement = 13 ∧
    (_onLinkKeydown "ArrowDown" (_onLinkKeydown "ArrowRight" sampleNav)).activeElement = 10 ∧
    (_onLinkKeydown "ArrowUp" (_onLinkKeydown "ArrowLeft" (_onLinkKeydown "ArrowLeft" sampleNav))
      ).activeElement = 13 ∧
    _onLinkKeydown "ArrowLeft" (_onLinkKeydown "ArrowRight" sampleNav) = sampleNav ∧
    (_onLinkKeydown "ArrowDown")^[4] sampleNav = sampleNav :=
  have hw := onLinkKeydown_cycles sampleNav 2 (by decide) (by decide)
  ⟨by decide, by decide, by decide, by decide, by decide,
    hw.2.2.1 "ArrowRight" (by decide) "ArrowLeft" (by decide),
    hw.2.2.2 "ArrowDown" (by decide)⟩

end Navigation
